import Mathlib

/-!
Verification of the kingdb storage engine core (src/storage/storage_engine.h)
against its natural-language specification.

The C++ code is shallowly embedded: machine integers become Nat with explicit
division and remainder by 2 ^ 32 where the code masks and shifts 64-bit
locations, byte buffers become List Nat, the std::multimap buckets become
lists in insertion order (C++11 multimaps preserve relative order of
equivalent keys), and the mutable engine state becomes explicit record
passing.  Functions whose bodies live in headers of this repository that are
not part of src/ (entry and footer codecs from kingdb/common.h, the CRC32C
library from util/crc32c.h) are modelled from the spec and marked as such in
their doc comments.
-/

/-! ## Locations

A location packs a fileid in the high 32 bits and a byte offset in the low
32 bits; the code extracts them with masks and shifts. -/

def fileidOf (location : Nat) : Nat := location / 2 ^ 32

def offsetOf (location : Nat) : Nat := location % 2 ^ 32

def makeLocation (fileid offset : Nat) : Nat := fileid * 2 ^ 32 + offset

/-! ## C1: Get lookup over the in-memory index

StorageEngine::GetWithIndex (storage_engine.h lines 1207-1243) walks the
bucket of hash(key) in reverse insertion order; at each location it decodes
the on-disk entry via GetEntry, compares the decoded key bytes with the query
key, and at the first byte-wise match returns NotFound for a Remove entry or
the value view otherwise.  The decoded contents of the entry stored at a
location are modelled by a function from locations to StoredEntry. -/

inductive EntryType where
  | put
  | remove
deriving DecidableEq, Repr

structure StoredEntry where
  key : List Nat
  value : List Nat
  type : EntryType
deriving DecidableEq, Repr

inductive GetResult where
  | found (value : List Nat)
  | notFound
deriving DecidableEq, Repr

/-- Inner loop of GetWithIndex: the bucket is traversed in the order given
(the caller passes the reversed bucket, newest first); a location whose
decoded key differs from the query key is skipped; at the first match a
Remove entry yields NotFound and a Put entry yields its value. -/
def getWithIndexWalk (store : Nat → StoredEntry) (key : List Nat) :
    List Nat → GetResult
  | [] => GetResult.notFound
  | loc :: rest =>
    if (store loc).key = key then
      if (store loc).type = EntryType.remove then GetResult.notFound
      else GetResult.found (store loc).value
    else getWithIndexWalk store key rest

/-- GetWithIndex: reverse the hash bucket (insertion order) so that the walk
is newest first, then run the walk. -/
def getWithIndex (store : Nat → StoredEntry) (key : List Nat)
    (bucket : List Nat) : GetResult :=
  getWithIndexWalk store key bucket.reverse

theorem getWithIndexWalk_spec (store : Nat → StoredEntry) (key : List Nat)
    (locs : List Nat) :
    getWithIndexWalk store key locs =
      match locs.find? (fun loc => (store loc).key == key) with
      | none => GetResult.notFound
      | some loc =>
        if (store loc).type = EntryType.remove then GetResult.notFound
        else GetResult.found (store loc).value := by
  induction locs with
  | nil => rfl
  | cons l rest ih =>
    by_cases h : (store l).key = key
    · simp [getWithIndexWalk, List.find?, h]
    · have hb : ((store l).key == key) = false := by simp [h]
      simp [getWithIndexWalk, List.find?, h, hb, ih]

/-- C1: For every Get on a key k, the lookup walks the locations of the
hash(k) bucket newest-first (reverse of insertion order); a location whose
decoded on-disk key differs from k is skipped; at the first location whose
on-disk key equals k the result is NotFound if the stored entry is a Remove
and otherwise the value stored there; if no location's key matches, the
result is NotFound. -/
theorem c1_get_newest_first_full_key_compare (store : Nat → StoredEntry)
    (key : List Nat) (bucket : List Nat) :
    getWithIndex store key bucket =
      match bucket.reverse.find? (fun loc => (store loc).key == key) with
      | none => GetResult.notFound
      | some loc =>
        if (store loc).type = EntryType.remove then GetResult.notFound
        else GetResult.found (store loc).value :=
  getWithIndexWalk_spec store key bucket.reverse

/-! ## C5: Merging the compaction result into the main index

Compaction step 12 (storage_engine.h lines 1669-1711): for each hash present
in the shifted update map, the code walks the pre-existing bucket of index_
and collects the locations whose fileid is greater than fileid_end
(locations_after), erases the bucket, inserts the compacted locations of
that hash in order, and then pushes each collected location.  The bucket is
modelled as a list in insertion order. -/

/-- Loop of lines 1684-1693: scan the old bucket in order and collect the
locations whose fileid is greater than fileid_end. -/
def collectAfter (fileidEnd : Nat) : List Nat → List Nat
  | [] => []
  | loc :: rest =>
    if fileidOf loc > fileidEnd then loc :: collectAfter fileidEnd rest
    else collectAfter fileidEnd rest

/-- Lines 1698-1703: the new bucket contents after erase(hashedkey), the
insertion of the compacted range, and the reinsertion of locations_after. -/
def mergeBucket (fileidEnd : Nat) (compacted old : List Nat) : List Nat :=
  compacted ++ collectAfter fileidEnd old

theorem collectAfter_eq_filter (fileidEnd : Nat) (old : List Nat) :
    collectAfter fileidEnd old =
      old.filter (fun loc => fileidEnd < fileidOf loc) := by
  induction old with
  | nil => rfl
  | cons l rest ih =>
    by_cases h : fileidOf l > fileidEnd
    · simp [collectAfter, h, List.filter, ih]
    · have hb : decide (fileidEnd < fileidOf l) = false := by
        simp [h]
      simp [collectAfter, h, List.filter, hb, ih]

theorem getWithIndexWalk_append_of_match (store : Nat → StoredEntry)
    (key : List Nat) (xs ys : List Nat)
    (h : ∃ l ∈ xs, (store l).key = key) :
    getWithIndexWalk store key (xs ++ ys) = getWithIndexWalk store key xs := by
  induction xs with
  | nil => simp at h
  | cons l rest ih =>
    by_cases hl : (store l).key = key
    · simp [getWithIndexWalk, hl]
    · have h' : ∃ x ∈ rest, (store x).key = key := by
        rcases h with ⟨x, hx, hkey⟩
        rcases List.mem_cons.mp hx with rfl | hx'
        · exact absurd hkey hl
        · exact ⟨x, hx', hkey⟩
      simp [getWithIndexWalk, hl, ih h']

/-- C5: After the merge of a compacted bucket, the bucket equals the
compacted locations followed by exactly the pre-existing locations of
fileid greater than fileid_end; every such pre-existing location survives
and is later in insertion order than every compacted location, so a lookup
for a key matched by a surviving location is decided among the survivors
and compaction reintroduces no value shadowed by a location written during
compaction. -/
theorem c5_merge_preserves_inflight_locations (fileidEnd : Nat)
    (compacted old : List Nat) (store : Nat → StoredEntry) (key : List Nat) :
    mergeBucket fileidEnd compacted old =
        compacted ++ old.filter (fun loc => fileidEnd < fileidOf loc) ∧
      (∀ loc ∈ old, fileidEnd < fileidOf loc →
        loc ∈ mergeBucket fileidEnd compacted old) ∧
      (∃ tail, mergeBucket fileidEnd compacted old = compacted ++ tail ∧
        ∀ loc ∈ tail, loc ∈ old ∧ fileidEnd < fileidOf loc) ∧
      ((∃ loc ∈ old.filter (fun loc => fileidEnd < fileidOf loc),
          (store loc).key = key) →
        getWithIndex store key (mergeBucket fileidEnd compacted old) =
          getWithIndex store key
            (old.filter (fun loc => fileidEnd < fileidOf loc))) := by
  have hmb : mergeBucket fileidEnd compacted old =
      compacted ++ old.filter (fun loc => fileidEnd < fileidOf loc) := by
    unfold mergeBucket
    rw [collectAfter_eq_filter]
  refine ⟨hmb, ?_, ?_, ?_⟩
  · intro loc hmem hgt
    rw [hmb]
    refine List.mem_append.mpr (Or.inr ?_)
    exact List.mem_filter.mpr ⟨hmem, by simpa using hgt⟩
  · refine ⟨old.filter (fun loc => fileidEnd < fileidOf loc), hmb, ?_⟩
    intro loc hloc
    have h := List.mem_filter.mp hloc
    exact ⟨h.1, by simpa using h.2⟩
  · intro hex
    rw [hmb]
    unfold getWithIndex
    rw [List.reverse_append]
    apply getWithIndexWalk_append_of_match
    rcases hex with ⟨l, hl, hkey⟩
    exact ⟨l, by simpa using hl, hkey⟩

/-! ## Timestamp sequence of a LogfileManager (C9, C6)

Lines 218-239: SetSequenceTimestamp writes the timestamp only when the
sequence is not locked, IncrementSequenceTimestamp adds to it only when not
locked and returns the current value, and LockSequenceTimestamp sets the
locked flag and overwrites the timestamp. -/

structure TSState where
  ts : Nat
  locked : Bool
deriving DecidableEq, Repr

/-- SetSequenceTimestamp (lines 219-222). -/
def setSequenceTimestamp (seq : Nat) (st : TSState) : TSState :=
  if st.locked then st else { st with ts := seq }

/-- IncrementSequenceTimestamp (lines 229-233): add inc unless locked and
return the resulting sequence timestamp. -/
def incrementSequenceTimestamp (inc : Nat) (st : TSState) : TSState × Nat :=
  let st1 := if st.locked then st else { st with ts := st.ts + inc }
  (st1, st1.ts)

/-- LockSequenceTimestamp (lines 235-239). -/
def lockSequenceTimestamp (seq : Nat) (st : TSState) : TSState :=
  { ts := seq, locked := true }

/-- The calls the claim quantifies over: SetSequenceTimestamp and
IncrementSequenceTimestamp invocations with their arguments. -/
inductive TSCall where
  | set (n : Nat)
  | inc (n : Nat)
deriving DecidableEq, Repr

/-- Run a sequence of Set and Increment calls, collecting the value returned
by each Increment call. -/
def runTSCalls : TSState → List TSCall → TSState × List Nat
  | st, [] => (st, [])
  | st, TSCall.set n :: rest => runTSCalls (setSequenceTimestamp n st) rest
  | st, TSCall.inc n :: rest =>
    let p := incrementSequenceTimestamp n st
    let q := runTSCalls p.1 rest
    (q.1, p.2 :: q.2)

theorem runTSCalls_locked (seq : Nat) (calls : List TSCall)
    (st : TSState) (hts : st.ts = seq) (hlock : st.locked = true) :
    (runTSCalls st calls).1.ts = seq ∧
      (runTSCalls st calls).1.locked = true ∧
      ∀ r ∈ (runTSCalls st calls).2, r = seq := by
  induction calls generalizing st with
  | nil => simpa [runTSCalls] using ⟨hts, hlock⟩
  | cons c rest ih =>
    cases c with
    | set n =>
      have hset : setSequenceTimestamp n st = st := by
        simp [setSequenceTimestamp, hlock]
      simpa [runTSCalls, hset] using ih st hts hlock
    | inc n =>
      have hinc : incrementSequenceTimestamp n st = (st, st.ts) := by
        simp [incrementSequenceTimestamp, hlock]
      have h := ih st hts hlock
      refine ⟨by simpa [runTSCalls, hinc] using h.1,
        by simpa [runTSCalls, hinc] using h.2.1, ?_⟩
      intro r hr
      simp only [runTSCalls, hinc] at hr
      rcases List.mem_cons.mp hr with rfl | hr'
      · exact hts
      · exact h.2.2 r hr'

/-- C9: After LockSequenceTimestamp(seq), the sequence timestamp equals seq;
every subsequent SetSequenceTimestamp or IncrementSequenceTimestamp call
leaves it unchanged and every Increment returns seq; before the lock, Set
and Increment calls do change the timestamp. -/
theorem c9_lock_sequence_timestamp_freezes (st : TSState) (seq : Nat)
    (calls : List TSCall) :
    (lockSequenceTimestamp seq st).ts = seq ∧
      (runTSCalls (lockSequenceTimestamp seq st) calls).1.ts = seq ∧
      (∀ r ∈ (runTSCalls (lockSequenceTimestamp seq st) calls).2, r = seq) ∧
      (∀ n, st.locked = false → (setSequenceTimestamp n st).ts = n) ∧
      (∀ n, st.locked = false →
        (incrementSequenceTimestamp n st).1.ts = st.ts + n) := by
  have h := runTSCalls_locked seq calls (lockSequenceTimestamp seq st)
    rfl rfl
  refine ⟨rfl, h.1, h.2.2, ?_, ?_⟩
  · intro n hn
    simp [setSequenceTimestamp, hn]
  · intro n hn
    simp [incrementSequenceTimestamp, hn]

/-! ## C6: Compaction output timestamps

Compaction step 6 computes timestamp_max as the maximum of the header
timestamps of its input files starting from 0 (lines 1504-1514), and step 7
(line 1613) locks the compaction log manager's sequence timestamp to that
maximum before writing any order.  While writing orders, the timestamp
sequence is only touched through IncrementSequenceTimestamp (OpenNewFile
line 257, WriteFirstChunkLargeOrder line 387) and SetSequenceTimestamp,
and each newly opened output file stores the sequence timestamp read right
after that increment into its header (lines 266, 275, 400). -/

def timestampMax (inputs : List Nat) : Nat := inputs.foldl max 0

/-- Timestamp-relevant events while the compaction log manager writes the
compacted orders: opening an output file (which increments the sequence and
stamps the file header), or a bare Set or Increment call. -/
inductive CompOp where
  | openFile
  | setTS (n : Nat)
  | incTS (n : Nat)
deriving DecidableEq, Repr

/-- Run the write events, collecting the header timestamp of every output
file that is opened. -/
def runCompOps : TSState → List CompOp → TSState × List Nat
  | st, [] => (st, [])
  | st, CompOp.openFile :: rest =>
    let p := incrementSequenceTimestamp 1 st
    let q := runCompOps p.1 rest
    (q.1, p.2 :: q.2)
  | st, CompOp.setTS n :: rest => runCompOps (setSequenceTimestamp n st) rest
  | st, CompOp.incTS n :: rest =>
    runCompOps (incrementSequenceTimestamp n st).1 rest

theorem runCompOps_locked (seq : Nat) (ops : List CompOp) (st : TSState)
    (hts : st.ts = seq) (hlock : st.locked = true) :
    (runCompOps st ops).1.ts = seq ∧
      (runCompOps st ops).1.locked = true ∧
      ∀ t ∈ (runCompOps st ops).2, t = seq := by
  induction ops generalizing st with
  | nil => simpa [runCompOps] using ⟨hts, hlock⟩
  | cons c rest ih =>
    cases c with
    | openFile =>
      have hinc : incrementSequenceTimestamp 1 st = (st, st.ts) := by
        simp [incrementSequenceTimestamp, hlock]
      have h := ih st hts hlock
      refine ⟨by simpa [runCompOps, hinc] using h.1,
        by simpa [runCompOps, hinc] using h.2.1, ?_⟩
      intro t ht
      simp only [runCompOps, hinc] at ht
      rcases List.mem_cons.mp ht with rfl | ht'
      · exact hts
      · exact h.2.2 t ht'
    | setTS n =>
      have hset : setSequenceTimestamp n st = st := by
        simp [setSequenceTimestamp, hlock]
      simpa [runCompOps, hset] using ih st hts hlock
    | incTS n =>
      have hinc : incrementSequenceTimestamp n st = (st, st.ts) := by
        simp [incrementSequenceTimestamp, hlock]
      simpa [runCompOps, hinc] using ih st hts hlock

theorem timestampMax_ge (inputs : List Nat) :
    ∀ t ∈ inputs, t ≤ timestampMax inputs := by
  have hgen : ∀ (l : List Nat) (a : Nat), a ≤ l.foldl max a ∧
      ∀ t ∈ l, t ≤ l.foldl max a := by
    intro l
    induction l with
    | nil => intro a; simp
    | cons x rest ih =>
      intro a
      have h := ih (max a x)
      refine ⟨le_trans (le_max_left a x) h.1, ?_⟩
      intro t ht
      rcases List.mem_cons.mp ht with rfl | ht'
      · exact le_trans (le_max_right a t) h.1
      · exact h.2 t ht'
  intro t ht
  exact (hgen inputs 0).2 t ht

/-- C6: The compaction log manager's timestamp sequence is locked to the
maximum of the input files' header timestamps before any order is written,
writing the orders leaves it unchanged, and every output file opened while
writing carries that maximum as its header timestamp, which is at least
every input timestamp. -/
theorem c6_compaction_outputs_carry_max_timestamp (st : TSState)
    (inputs : List Nat) (ops : List CompOp) :
    (lockSequenceTimestamp (timestampMax inputs) st).ts = timestampMax inputs ∧
      (runCompOps (lockSequenceTimestamp (timestampMax inputs) st) ops).1.ts =
        timestampMax inputs ∧
      (∀ t ∈ (runCompOps (lockSequenceTimestamp (timestampMax inputs) st) ops).2,
        t = timestampMax inputs) ∧
      ∀ t ∈ inputs, t ≤ timestampMax inputs := by
  have h := runCompOps_locked (timestampMax inputs) ops
    (lockSequenceTimestamp (timestampMax inputs) st) rfl rfl
  exact ⟨rfl, h.1, h.2.2, timestampMax_ge inputs⟩

/-! ## C2: RecoverFile and CRC mismatches

LogfileManager::RecoverFile (storage_engine.h lines 865-936) walks the
entries of a non-large segment from SIZE_LOGFILE_HEADER.  Each iteration
decodes the entry header at the current offset, breaks out of the loop when
the decode fails or the entry does not fit in the file, recomputes the CRC32
over the entry bytes and compares it with the stored one; a CRC-valid entry
is appended to the rebuilt footer index and inserted into the index, a
CRC-invalid entry only raises has_invalid_entries, and in both cases the
offset advances past the entry and the loop continues.  Afterwards the file
is truncated at the final offset and a fresh footer is appended.

A decodable in-bounds entry of the scan is modelled by its decoded header
fields: the hash, the stored CRC32, the CRC32 the scan recomputes over the
entry's bytes, the total on-disk size (size_header + size_key +
size_value_offset), and the padding flag.  The list passed to the scan holds
exactly the consecutive entries that decode and fit, so the end of the list
is the point where the source loop breaks. -/

structure RecEntry where
  hash : Nat
  crcStored : Nat
  crcComputed : Nat
  sizeTotal : Nat
  hasPadding : Bool
deriving DecidableEq, Repr

/-- Result of the recovery scan: the rebuilt footer index (hash, offset)
pairs, the (hash, location) pairs inserted into the index, the
has_invalid_entries flag, the has_padding_in_values flag, and the final
offset at which the file is truncated. -/
structure RecoverResult where
  logindex : List (Nat × Nat)
  indexInserts : List (Nat × Nat)
  hasInvalidEntries : Bool
  hasPaddingInValues : Bool
  offsetFinal : Nat
deriving DecidableEq, Repr

/-- Loop of RecoverFile lines 881-915. -/
def recoverScan (fileid : Nat) (offset : Nat) :
    List RecEntry → RecoverResult
  | [] =>
    { logindex := [], indexInserts := [], hasInvalidEntries := false,
      hasPaddingInValues := false, offsetFinal := offset }
  | e :: rest =>
    let r := recoverScan fileid (offset + e.sizeTotal) rest
    if e.crcStored = e.crcComputed then
      { r with
        logindex := (e.hash, offset) :: r.logindex,
        indexInserts := (e.hash, makeLocation fileid offset) :: r.indexInserts,
        hasPaddingInValues := e.hasPadding || r.hasPaddingInValues }
    else
      { r with
        hasInvalidEntries := true,
        hasPaddingInValues := e.hasPadding || r.hasPaddingInValues }

/-- SIZE_LOGFILE_HEADER.  Modelled from the spec: the fixed size of the
segment-file header region (file type tag plus 64-bit timestamp plus
padding); its numeric value lives in a header outside src/, so a concrete
fixed value is committed to here. -/
def SIZE_LOGFILE_HEADER : Nat := 16

/-- RecoverFile steps 2-3 for a non-large file: run the scan from
SIZE_LOGFILE_HEADER; if the final offset moved past the header, the file is
truncated at that offset and a footer is appended, otherwise recovery
fails. -/
def recoverFile (fileid : Nat) (entries : List RecEntry) :
    Option RecoverResult :=
  let r := recoverScan fileid SIZE_LOGFILE_HEADER entries
  if r.offsetFinal > SIZE_LOGFILE_HEADER then some r else none

/-- C2 counterexample: a segment whose first entry (N = 1) has a corrupted
stored CRC followed by a CRC-valid second entry.  The claim predicts that
the scan stops at entry 1, that no entry is indexed, and that the file is
truncated at the end of entry 0, i.e. at SIZE_LOGFILE_HEADER = 16.  The
code instead skips only the corrupt entry, indexes the valid entry that
follows it, and truncates at the end of the last decodable entry,
offset 36. -/
theorem c2_counterexample :
    recoverScan 1 SIZE_LOGFILE_HEADER
        [ { hash := 7, crcStored := 1, crcComputed := 2, sizeTotal := 10,
            hasPadding := false },
          { hash := 8, crcStored := 5, crcComputed := 5, sizeTotal := 10,
            hasPadding := false } ] =
      { logindex := [(8, 26)],
        indexInserts := [(8, makeLocation 1 26)],
        hasInvalidEntries := true,
        hasPaddingInValues := false,
        offsetFinal := 36 } ∧
      (8, makeLocation 1 26) ∈
        (recoverScan 1 SIZE_LOGFILE_HEADER
          [ { hash := 7, crcStored := 1, crcComputed := 2, sizeTotal := 10,
              hasPadding := false },
            { hash := 8, crcStored := 5, crcComputed := 5, sizeTotal := 10,
              hasPadding := false } ]).indexInserts ∧
      (recoverScan 1 SIZE_LOGFILE_HEADER
          [ { hash := 7, crcStored := 1, crcComputed := 2, sizeTotal := 10,
              hasPadding := false },
            { hash := 8, crcStored := 5, crcComputed := 5, sizeTotal := 10,
              hasPadding := false } ]).offsetFinal ≠ SIZE_LOGFILE_HEADER := by
  refine ⟨by decide, by decide, by decide⟩

/-- Offsets at which the scan visits each entry. -/
def entryOffsets (offset : Nat) : List RecEntry → List (RecEntry × Nat)
  | [] => []
  | e :: rest => (e, offset) :: entryOffsets (offset + e.sizeTotal) rest

/-- C2 (amended): when the stored CRC32 of the N-th decodable entry does not
match the recomputed one, the scan does not stop there: entry N is excluded
from the index and the rebuilt footer index and has_invalid_entries is set,
while every other decodable entry with a matching CRC32 - before or after
entry N - is still inserted into both, and the file is truncated at the end
of the last decodable entry. -/
theorem c2_amended_recover_skips_bad_crc_and_continues (fileid offset : Nat)
    (entries : List RecEntry) :
    recoverScan fileid offset entries =
      { logindex := (entryOffsets offset entries).filterMap
          (fun p => if p.1.crcStored = p.1.crcComputed
            then some (p.1.hash, p.2) else none),
        indexInserts := (entryOffsets offset entries).filterMap
          (fun p => if p.1.crcStored = p.1.crcComputed
            then some (p.1.hash, makeLocation fileid p.2) else none),
        hasInvalidEntries :=
          entries.any (fun e => ¬ e.crcStored = e.crcComputed),
        hasPaddingInValues := entries.any (fun e => e.hasPadding),
        offsetFinal := offset + (entries.map RecEntry.sizeTotal).sum } := by
  induction entries generalizing offset with
  | nil => simp [recoverScan, entryOffsets]
  | cons e rest ih =>
    by_cases h : e.crcStored = e.crcComputed
    · simp [recoverScan, entryOffsets, h, ih, List.any_cons]
      omega
    · simp [recoverScan, entryOffsets, h, ih, List.any_cons]
      omega

/-! ## C4: Compaction candidate selection

Compaction step 3 (storage_engine.h lines 1394-1436): the candidate vector
is reversed so that the most recent locations come first, then for each
location the key is decoded; locations in files beyond fileid_end are
skipped; for the first occurrence of a key the location goes to the
large-keep set when its file is large, to the regular-keep set when it is a
Put, and to the delete set when it is a Remove; every further occurrence of
an already-seen key goes to the delete set.  The decoded entry at a location
is modelled by a function from locations to its key bytes and remove flag. -/

structure CandEntry where
  key : List Nat
  isRemove : Bool
deriving DecidableEq, Repr

structure SelectResult where
  fileidsCompaction : List Nat
  keepRegular : List Nat
  keepLarge : List Nat
  del : List Nat
deriving DecidableEq, Repr

/-- Loop body of lines 1404-1435 over the already-reversed candidate list,
with the keys_encountered set carried explicitly. -/
def compactionSelect (isLarge : Nat → Bool) (fileidEnd : Nat)
    (entryAt : Nat → CandEntry) (seen : List (List Nat)) :
    List Nat → SelectResult
  | [] =>
    { fileidsCompaction := [], keepRegular := [], keepLarge := [], del := [] }
  | loc :: rest =>
    if fileidOf loc > fileidEnd then
      compactionSelect isLarge fileidEnd entryAt seen rest
    else
      if (entryAt loc).key ∈ seen then
        let r := compactionSelect isLarge fileidEnd entryAt seen rest
        { r with del := loc :: r.del,
                 fileidsCompaction := fileidOf loc :: r.fileidsCompaction }
      else
        let r := compactionSelect isLarge fileidEnd entryAt
          ((entryAt loc).key :: seen) rest
        if isLarge (fileidOf loc) then
          { r with keepLarge := loc :: r.keepLarge,
                   fileidsCompaction := fileidOf loc :: r.fileidsCompaction }
        else if (entryAt loc).isRemove = false then
          { r with keepRegular := loc :: r.keepRegular,
                   fileidsCompaction := fileidOf loc :: r.fileidsCompaction }
        else
          { r with del := loc :: r.del,
                   fileidsCompaction := fileidOf loc :: r.fileidsCompaction }

/-- Candidate-selection pass: reverse the candidate vector (line 1403) so
the most recent locations are treated first, and run the selection loop with
an empty keys_encountered set. -/
def compactionCandidateScan (isLarge : Nat → Bool) (fileidEnd : Nat)
    (entryAt : Nat → CandEntry) (cands : List Nat) : SelectResult :=
  compactionSelect isLarge fileidEnd entryAt [] cands.reverse

theorem compactionSelect_keepRegular_sound (isLarge : Nat → Bool)
    (fileidEnd : Nat) (entryAt : Nat → CandEntry) :
    ∀ (rc : List Nat) (seen : List (List Nat)) (loc : Nat),
    loc ∈ (compactionSelect isLarge fileidEnd entryAt seen rc).keepRegular →
    ∃ pre post, rc = pre ++ loc :: post ∧ ¬ fileidOf loc > fileidEnd ∧
      isLarge (fileidOf loc) = false ∧ (entryAt loc).isRemove = false ∧
      (entryAt loc).key ∉ seen ∧
      ∀ l ∈ pre, ¬ fileidOf l > fileidEnd →
        (entryAt l).key ≠ (entryAt loc).key := by
  intro rc
  induction rc with
  | nil =>
    intro seen loc h
    simp [compactionSelect] at h
  | cons x rest ih =>
    intro seen loc h
    by_cases hf : fileidOf x > fileidEnd
    · simp only [compactionSelect, if_pos hf] at h
      rcases ih seen loc h with ⟨pre, post, heq, h1, h2, h3, h4, h5⟩
      refine ⟨x :: pre, post, by simp [heq], h1, h2, h3, h4, ?_⟩
      intro l hl hlr
      rcases List.mem_cons.mp hl with rfl | hl'
      · exact absurd hf (by simpa using hlr)
      · exact h5 l hl' hlr
    · by_cases hs : (entryAt x).key ∈ seen
      · simp only [compactionSelect, if_neg hf, if_pos hs] at h
        rcases ih seen loc h with ⟨pre, post, heq, h1, h2, h3, h4, h5⟩
        refine ⟨x :: pre, post, by simp [heq], h1, h2, h3, h4, ?_⟩
        intro l hl hlr
        rcases List.mem_cons.mp hl with rfl | hl'
        · intro hkey
          exact h4 (hkey ▸ hs)
        · exact h5 l hl' hlr
      · by_cases hL : isLarge (fileidOf x)
        · simp only [compactionSelect, if_neg hf, if_neg hs, if_pos hL] at h
          rcases ih _ loc h with ⟨pre, post, heq, h1, h2, h3, h4, h5⟩
          have h4' : (entryAt loc).key ∉ seen := by
            intro hmem
            exact h4 (List.mem_cons.mpr (Or.inr hmem))
          refine ⟨x :: pre, post, by simp [heq], h1, h2, h3, h4', ?_⟩
          intro l hl hlr
          rcases List.mem_cons.mp hl with rfl | hl'
          · intro hkey
            exact h4 (List.mem_cons.mpr (Or.inl hkey.symm))
          · exact h5 l hl' hlr
        · by_cases hr : (entryAt x).isRemove = false
          · simp only [compactionSelect, if_neg hf, if_neg hs, if_neg hL,
              if_pos hr, List.mem_cons] at h
            rcases h with rfl | h'
            · exact ⟨[], rest, rfl, hf, by simpa using hL, hr, hs,
                by intro l hl; simp at hl⟩
            · rcases ih _ loc h' with ⟨pre, post, heq, h1, h2, h3, h4, h5⟩
              have h4' : (entryAt loc).key ∉ seen := by
                intro hmem
                exact h4 (List.mem_cons.mpr (Or.inr hmem))
              refine ⟨x :: pre, post, by simp [heq], h1, h2, h3, h4', ?_⟩
              intro l hl hlr
              rcases List.mem_cons.mp hl with rfl | hl'
              · intro hkey
                exact h4 (List.mem_cons.mpr (Or.inl hkey.symm))
              · exact h5 l hl' hlr
          · simp only [compactionSelect, if_neg hf, if_neg hs, if_neg hL,
              if_neg hr] at h
            rcases ih _ loc h with ⟨pre, post, heq, h1, h2, h3, h4, h5⟩
            have h4' : (entryAt loc).key ∉ seen := by
              intro hmem
              exact h4 (List.mem_cons.mpr (Or.inr hmem))
            refine ⟨x :: pre, post, by simp [heq], h1, h2, h3, h4', ?_⟩
            intro l hl hlr
            rcases List.mem_cons.mp hl with rfl | hl'
            · intro hkey
              exact h4 (List.mem_cons.mpr (Or.inl hkey.symm))
            · exact h5 l hl' hlr

theorem compactionSelect_del_of_seen (isLarge : Nat → Bool)
    (fileidEnd : Nat) (entryAt : Nat → CandEntry) :
    ∀ (pre : List Nat) (loc : Nat) (post : List Nat) (seen : List (List Nat)),
    (entryAt loc).key ∈ seen → ¬ fileidOf loc > fileidEnd →
    loc ∈ (compactionSelect isLarge fileidEnd entryAt seen
      (pre ++ loc :: post)).del := by
  intro pre
  induction pre with
  | nil =>
    intro loc post seen hseen hin
    simp only [List.nil_append, compactionSelect, if_neg hin, if_pos hseen]
    exact List.mem_cons.mpr (Or.inl rfl)
  | cons x pre' ih =>
    intro loc post seen hseen hin
    simp only [List.cons_append]
    by_cases hf : fileidOf x > fileidEnd
    · simp only [compactionSelect, if_pos hf]
      exact ih loc post seen hseen hin
    · by_cases hs : (entryAt x).key ∈ seen
      · simp only [compactionSelect, if_neg hf, if_pos hs]
        exact List.mem_cons.mpr (Or.inr (ih loc post seen hseen hin))
      · have hseen' : (entryAt loc).key ∈ (entryAt x).key :: seen :=
          List.mem_cons.mpr (Or.inr hseen)
        by_cases hL : isLarge (fileidOf x)
        · simp only [compactionSelect, if_neg hf, if_neg hs, if_pos hL]
          exact ih loc post _ hseen' hin
        · by_cases hr : (entryAt x).isRemove = false
          · simp only [compactionSelect, if_neg hf, if_neg hs, if_neg hL,
              if_pos hr]
            exact ih loc post _ hseen' hin
          · simp only [compactionSelect, if_neg hf, if_neg hs, if_neg hL,
              if_neg hr]
            exact List.mem_cons.mpr (Or.inr (ih loc post _ hseen' hin))

theorem compactionSelect_del_later_occurrence (isLarge : Nat → Bool)
    (fileidEnd : Nat) (entryAt : Nat → CandEntry) :
    ∀ (pre : List Nat) (loc : Nat) (post : List Nat) (seen : List (List Nat)),
    ¬ fileidOf loc > fileidEnd →
    (∃ l ∈ pre, ¬ fileidOf l > fileidEnd ∧
      (entryAt l).key = (entryAt loc).key) →
    loc ∈ (compactionSelect isLarge fileidEnd entryAt seen
      (pre ++ loc :: post)).del := by
  intro pre
  induction pre with
  | nil =>
    intro loc post seen _ hwit
    simp at hwit
  | cons x pre' ih =>
    intro loc post seen hin hwit
    simp only [List.cons_append]
    rcases hwit with ⟨l, hl, hlr, hlkey⟩
    rcases List.mem_cons.mp hl with rfl | hl'
    · -- the head is the earlier in-range occurrence of the same key
      by_cases hs : (entryAt l).key ∈ seen
      · simp only [compactionSelect, if_neg hlr, if_pos hs]
        refine List.mem_cons.mpr (Or.inr ?_)
        exact compactionSelect_del_of_seen isLarge fileidEnd entryAt
          pre' loc post seen (hlkey ▸ hs) hin
      · have hseen' : (entryAt loc).key ∈ (entryAt l).key :: seen := by
          rw [hlkey]
          exact List.mem_cons.mpr (Or.inl rfl)
        by_cases hL : isLarge (fileidOf l)
        · simp only [compactionSelect, if_neg hlr, if_neg hs, if_pos hL]
          exact compactionSelect_del_of_seen isLarge fileidEnd entryAt
            pre' loc post _ hseen' hin
        · by_cases hr : (entryAt l).isRemove = false
          · simp only [compactionSelect, if_neg hlr, if_neg hs, if_neg hL,
              if_pos hr]
            exact compactionSelect_del_of_seen isLarge fileidEnd entryAt
              pre' loc post _ hseen' hin
          · simp only [compactionSelect, if_neg hlr, if_neg hs, if_neg hL,
              if_neg hr]
            refine List.mem_cons.mpr (Or.inr ?_)
            exact compactionSelect_del_of_seen isLarge fileidEnd entryAt
              pre' loc post _ hseen' hin
    · -- the earlier occurrence is further down the prefix
      have hwit' : ∃ l' ∈ pre', ¬ fileidOf l' > fileidEnd ∧
          (entryAt l').key = (entryAt loc).key := ⟨l, hl', hlr, hlkey⟩
      by_cases hf : fileidOf x > fileidEnd
      · simp only [compactionSelect, if_pos hf]
        exact ih loc post seen hin hwit'
      · by_cases hs : (entryAt x).key ∈ seen
        · simp only [compactionSelect, if_neg hf, if_pos hs]
          exact List.mem_cons.mpr (Or.inr (ih loc post seen hin hwit'))
        · by_cases hL : isLarge (fileidOf x)
          · simp only [compactionSelect, if_neg hf, if_neg hs, if_pos hL]
            exact ih loc post _ hin hwit'
          · by_cases hr : (entryAt x).isRemove = false
            · simp only [compactionSelect, if_neg hf, if_neg hs, if_neg hL,
                if_pos hr]
              exact ih loc post _ hin hwit'
            · simp only [compactionSelect, if_neg hf, if_neg hs, if_neg hL,
                if_neg hr]
              exact List.mem_cons.mpr (Or.inr (ih loc post _ hin hwit'))

theorem compactionSelect_first_occurrence (isLarge : Nat → Bool)
    (fileidEnd : Nat) (entryAt : Nat → CandEntry) :
    ∀ (pre : List Nat) (loc : Nat) (post : List Nat) (seen : List (List Nat)),
    ¬ fileidOf loc > fileidEnd →
    isLarge (fileidOf loc) = false →
    (entryAt loc).key ∉ seen →
    (∀ l ∈ pre, ¬ fileidOf l > fileidEnd →
      (entryAt l).key ≠ (entryAt loc).key) →
    ((entryAt loc).isRemove = false →
      loc ∈ (compactionSelect isLarge fileidEnd entryAt seen
        (pre ++ loc :: post)).keepRegular) ∧
    ((entryAt loc).isRemove = true →
      loc ∈ (compactionSelect isLarge fileidEnd entryAt seen
        (pre ++ loc :: post)).del) := by
  intro pre
  induction pre with
  | nil =>
    intro loc post seen hin hL hns _
    constructor
    · intro hput
      simp only [List.nil_append, compactionSelect, if_neg hin, if_neg hns,
        if_neg (by simp [hL] : ¬ isLarge (fileidOf loc) = true), if_pos hput]
      exact List.mem_cons.mpr (Or.inl rfl)
    · intro hrm
      have hr : ¬ (entryAt loc).isRemove = false := by simp [hrm]
      simp only [List.nil_append, compactionSelect, if_neg hin, if_neg hns,
        if_neg (by simp [hL] : ¬ isLarge (fileidOf loc) = true), if_neg hr]
      exact List.mem_cons.mpr (Or.inl rfl)
  | cons x pre' ih =>
    intro loc post seen hin hL hns hpre
    have hpre' : ∀ l ∈ pre', ¬ fileidOf l > fileidEnd →
        (entryAt l).key ≠ (entryAt loc).key := by
      intro l hl
      exact hpre l (List.mem_cons.mpr (Or.inr hl))
    simp only [List.cons_append]
    by_cases hf : fileidOf x > fileidEnd
    · simp only [compactionSelect, if_pos hf]
      exact ih loc post seen hin hL hns hpre'
    · by_cases hs : (entryAt x).key ∈ seen
      · have h := ih loc post seen hin hL hns hpre'
        constructor
        · intro hput
          simp only [compactionSelect, if_neg hf, if_pos hs]
          exact h.1 hput
        · intro hrm
          simp only [compactionSelect, if_neg hf, if_pos hs]
          exact List.mem_cons.mpr (Or.inr (h.2 hrm))
      · have hns' : (entryAt loc).key ∉ (entryAt x).key :: seen := by
          intro hmem
          rcases List.mem_cons.mp hmem with heq | hmem'
          · exact hpre x (List.mem_cons.mpr (Or.inl rfl)) hf heq.symm
          · exact hns hmem'
        have h := ih loc post _ hin hL hns' hpre'
        by_cases hxL : isLarge (fileidOf x)
        · constructor
          · intro hput
            simp only [compactionSelect, if_neg hf, if_neg hs, if_pos hxL]
            exact h.1 hput
          · intro hrm
            simp only [compactionSelect, if_neg hf, if_neg hs, if_pos hxL]
            exact h.2 hrm
        · by_cases hxr : (entryAt x).isRemove = false
          · constructor
            · intro hput
              simp only [compactionSelect, if_neg hf, if_neg hs, if_neg hxL,
                if_pos hxr]
              exact List.mem_cons.mpr (Or.inr (h.1 hput))
            · intro hrm
              simp only [compactionSelect, if_neg hf, if_neg hs, if_neg hxL,
                if_pos hxr]
              exact h.2 hrm
          · constructor
            · intro hput
              simp only [compactionSelect, if_neg hf, if_neg hs, if_neg hxL,
                if_neg hxr]
              exact h.1 hput
            · intro hrm
              simp only [compactionSelect, if_neg hf, if_neg hs, if_neg hxL,
                if_neg hxr]
              exact List.mem_cons.mpr (Or.inr (h.2 hrm))

/-- C4: The candidate-selection pass traverses the candidate locations
most-recent first (the reversed candidate vector) while maintaining a set of
already-seen keys; a location enters the keep-regular set only when it is
the first (newest) in-range occurrence of its key, is a Put and lies in a
non-large file (and always does so then); the first in-range occurrence of a
never-seen key that is a Remove is marked for deletion; and every later
in-range occurrence of an already-seen key is marked for deletion.  The
hypothesis reflects that large files only ever hold Put entries
(WriteFirstChunkLargeOrder line 408 is the only writer of large files). -/
theorem c4_compaction_selection_decisions (isLarge : Nat → Bool)
    (fileidEnd : Nat) (entryAt : Nat → CandEntry) (cands : List Nat)
    (hLargePut : ∀ loc, isLarge (fileidOf loc) = true →
      (entryAt loc).isRemove = false) :
    (∀ loc ∈
        (compactionCandidateScan isLarge fileidEnd entryAt cands).keepRegular,
      ∃ pre post, cands.reverse = pre ++ loc :: post ∧
        ¬ fileidOf loc > fileidEnd ∧ isLarge (fileidOf loc) = false ∧
        (entryAt loc).isRemove = false ∧
        ∀ l ∈ pre, ¬ fileidOf l > fileidEnd →
          (entryAt l).key ≠ (entryAt loc).key) ∧
    (∀ pre loc post, cands.reverse = pre ++ loc :: post →
      ¬ fileidOf loc > fileidEnd →
      (∀ l ∈ pre, ¬ fileidOf l > fileidEnd →
        (entryAt l).key ≠ (entryAt loc).key) →
      ((entryAt loc).isRemove = false → isLarge (fileidOf loc) = false →
        loc ∈ (compactionCandidateScan isLarge fileidEnd entryAt
          cands).keepRegular) ∧
      ((entryAt loc).isRemove = true →
        loc ∈ (compactionCandidateScan isLarge fileidEnd entryAt
          cands).del)) ∧
    (∀ pre loc post, cands.reverse = pre ++ loc :: post →
      ¬ fileidOf loc > fileidEnd →
      (∃ l ∈ pre, ¬ fileidOf l > fileidEnd ∧
        (entryAt l).key = (entryAt loc).key) →
      loc ∈ (compactionCandidateScan isLarge fileidEnd entryAt cands).del) := by
  refine ⟨?_, ?_, ?_⟩
  · intro loc h
    rcases compactionSelect_keepRegular_sound isLarge fileidEnd entryAt
      cands.reverse [] loc h with ⟨pre, post, heq, h1, h2, h3, _, h5⟩
    exact ⟨pre, post, heq, h1, h2, h3, h5⟩
  · intro pre loc post heq hin hpre
    constructor
    · intro hput hL
      have := (compactionSelect_first_occurrence isLarge fileidEnd entryAt
        pre loc post [] hin hL (by simp) hpre).1 hput
      unfold compactionCandidateScan
      rw [heq]
      exact this
    · intro hrm
      have hL : isLarge (fileidOf loc) = false := by
        by_cases hL' : isLarge (fileidOf loc) = true
        · exact absurd (hLargePut loc hL') (by simp [hrm])
        · simpa using hL'
      have := (compactionSelect_first_occurrence isLarge fileidEnd entryAt
        pre loc post [] hin hL (by simp) hpre).2 hrm
      unfold compactionCandidateScan
      rw [heq]
      exact this
  · intro pre loc post heq hin hwit
    have := compactionSelect_del_later_occurrence isLarge fileidEnd entryAt
      pre loc post [] hin hwit
    unfold compactionCandidateScan
    rw [heq]
    exact this

/-! ## Byte-level codecs (C8, C7)

The segment codecs live in kingdb/common.h and util/coding, outside src/.
Modelled from the spec: all multi-byte integers are fixed-width
little-endian (spec section 6); the spec leaves the variable-length size
encoding implementation-defined but deterministic, and this model commits to
fixed 8-byte fields.  CRC32C itself (util/crc32c.h) is modelled as an
arbitrary deterministic function of the byte sequence with values below
2 ^ 32; the claims settled here depend only on those two properties. -/

def encodeFixed : Nat → Nat → List Nat
  | 0, _ => []
  | w + 1, x => x % 256 :: encodeFixed w (x / 256)

def decodeFixed : Nat → List Nat → Nat
  | 0, _ => 0
  | _ + 1, [] => 0
  | w + 1, b :: rest => b + 256 * decodeFixed w rest

/-- Modelled from the spec: crc32c::Value as a deterministic function of the
byte region, with results below 2 ^ 32. -/
def crc32Model (bytes : List Nat) : Nat :=
  bytes.foldl (fun acc b => (acc * 131 + b + 1) % 2 ^ 32) 0

theorem length_encodeFixed (w x : Nat) : (encodeFixed w x).length = w := by
  induction w generalizing x with
  | zero => rfl
  | succ w ih => simp [encodeFixed, ih]

theorem decodeFixed_encodeFixed (w x : Nat) (rest : List Nat)
    (h : x < 256 ^ w) :
    decodeFixed w (encodeFixed w x ++ rest) = x := by
  induction w generalizing x rest with
  | zero =>
    interval_cases x
    rfl
  | succ w ih =>
    have hdiv : x / 256 < 256 ^ w := by
      rw [Nat.div_lt_iff_lt_mul (by norm_num : 0 < 256)]
      calc x < 256 ^ (w + 1) := h
      _ = 256 ^ w * 256 := by ring
    have hrec := ih (x / 256) rest hdiv
    simp only [encodeFixed, List.cons_append, decodeFixed, List.append_eq]
    rw [hrec]
    omega

theorem crc32Model_lt (bytes : List Nat) : crc32Model bytes < 2 ^ 32 := by
  have hgen : ∀ (l : List Nat) (a : Nat), a < 2 ^ 32 →
      l.foldl (fun acc b => (acc * 131 + b + 1) % 2 ^ 32) a < 2 ^ 32 := by
    intro l
    induction l with
    | nil => intro a ha; simpa using ha
    | cons b rest ih =>
      intro a _
      exact ih _ (Nat.mod_lt _ (by norm_num))
  exact hgen bytes 0 (by norm_num)

/-! ## C8: WriteLogIndex and LoadFile footer round-trip

LogfileManager::WriteLogIndex (lines 341-379) appends, at the current end of
the file (position), one encoded LogFileFooterIndex per (hash, offset) pair
followed by the fixed LogFileFooter record, then overwrites the final 4
bytes with the CRC32 of the region excluding those 4 bytes.
LogfileManager::LoadFile (lines 821-863) decodes the fixed footer from the
last bytes of the file, rejects the file on a magic-number or CRC mismatch,
and otherwise walks num_entries footer-index records from offset_indexes,
inserting (hashed_key, fileid<<32|offset_entry) into the index. -/

structure LogFileFooter where
  filetype : Nat
  flags : Nat
  offset_indexes : Nat
  num_entries : Nat
  magic_number : Nat
  crc32 : Nat
deriving DecidableEq, Repr

/-- Magic number of the footer (line 968). -/
def magicNumber : Nat := 0x4d454f57

/-- Modelled from the spec: the footer flags byte built from
SetFlagHasPaddingInValues and SetFlagHasInvalidEntries (kingdb/common.h). -/
def footerFlags (hasPaddingInValues hasInvalidEntries : Bool) : Nat :=
  (if hasPaddingInValues then 1 else 0) + (if hasInvalidEntries then 2 else 0)

/-- Modelled from the spec: LogFileFooterIndex::EncodeTo, a 64-bit hashed
key followed by a 32-bit entry offset. -/
def encodeFooterIndexPair (p : Nat × Nat) : List Nat :=
  encodeFixed 8 p.1 ++ encodeFixed 4 p.2

/-- Modelled from the spec: LogFileFooter::EncodeTo with its fixed 30-byte
layout: filetype, flags, offset_indexes, num_entries, magic, crc32. -/
def encodeLogFileFooter (f : LogFileFooter) : List Nat :=
  f.filetype :: f.flags :: (encodeFixed 8 f.offset_indexes ++
    encodeFixed 8 f.num_entries ++ encodeFixed 8 f.magic_number ++
    encodeFixed 4 f.crc32)

/-- LogFileFooter::GetFixedSize. -/
def logFileFooterFixedSize : Nat := 30

/-- Modelled from the spec: LogFileFooter::DecodeFrom. -/
def decodeLogFileFooter (bytes : List Nat) : LogFileFooter :=
  { filetype := bytes.getD 0 0,
    flags := bytes.getD 1 0,
    offset_indexes := decodeFixed 8 (bytes.drop 2),
    num_entries := decodeFixed 8 (bytes.drop 10),
    magic_number := decodeFixed 8 (bytes.drop 18),
    crc32 := decodeFixed 4 (bytes.drop 26) }

/-- Modelled from the spec: LogFileFooterIndex::DecodeFrom; each record is
12 bytes. -/
def decodeFooterIndexPair (bytes : List Nat) : Nat × Nat :=
  (decodeFixed 8 bytes, decodeFixed 4 (bytes.drop 8))

def decodeFooterIndexPairs : Nat → List Nat → List (Nat × Nat)
  | 0, _ => []
  | n + 1, bytes =>
    decodeFooterIndexPair bytes :: decodeFooterIndexPairs n (bytes.drop 12)

/-- WriteLogIndex (lines 341-379): the bytes appended at the end of the
file, where position is the file length at the time of the append (the
lseek to SEEK_END of line 357). -/
def writeLogIndexRegion (logindex : List (Nat × Nat)) (filetype : Nat)
    (hasPaddingInValues hasInvalidEntries : Bool) (position : Nat) :
    List Nat :=
  let pairBytes := (logindex.map encodeFooterIndexPair).flatten
  let footer : LogFileFooter :=
    { filetype := filetype,
      flags := footerFlags hasPaddingInValues hasInvalidEntries,
      offset_indexes := position,
      num_entries := logindex.length,
      magic_number := magicNumber,
      crc32 := 0 }
  let buffered := pairBytes ++ encodeLogFileFooter footer
  buffered.take (buffered.length - 4) ++
    encodeFixed 4 (crc32Model (buffered.take (buffered.length - 4)))

/-- LoadFile (lines 821-863) restricted to its result: the number of footer
entries and the (hashed_key, location) pairs inserted into the index, or
none when the footer is rejected. -/
def loadFile (fileid : Nat) (file : List Nat) :
    Option (Nat × List (Nat × Nat)) :=
  if file.length < logFileFooterFixedSize then none
  else
    let footer :=
      decodeLogFileFooter (file.drop (file.length - logFileFooterFixedSize))
    if footer.magic_number ≠ magicNumber then none
    else
      if crc32Model ((file.drop footer.offset_indexes).take
          (file.length - footer.offset_indexes - 4)) ≠ footer.crc32 then none
      else
        some (footer.num_entries,
          (decodeFooterIndexPairs footer.num_entries
            (file.drop footer.offset_indexes)).map
            (fun p => (p.1, makeLocation fileid p.2)))

theorem length_encodeFooterIndexPair (p : Nat × Nat) :
    (encodeFooterIndexPair p).length = 12 := by
  simp [encodeFooterIndexPair, length_encodeFixed]

theorem length_footerIndexBytes (l : List (Nat × Nat)) :
    ((l.map encodeFooterIndexPair).flatten).length = 12 * l.length := by
  induction l with
  | nil => simp
  | cons p rest ih =>
    simp [List.flatten, length_encodeFooterIndexPair, ih]
    ring

theorem length_encodeLogFileFooter (f : LogFileFooter) :
    (encodeLogFileFooter f).length = 30 := by
  simp [encodeLogFileFooter, length_encodeFixed]


theorem drop_append_left (xs ys : List Nat) (n : Nat) (h : xs.length ≤ n) :
    (xs ++ ys).drop n = ys.drop (n - xs.length) := by
  rw [List.drop_append_eq_append_drop, List.drop_eq_nil_of_le h,
    List.nil_append]

theorem decodeLogFileFooter_encode (f : LogFileFooter) (rest : List Nat)
    (h1 : f.offset_indexes < 256 ^ 8) (h2 : f.num_entries < 256 ^ 8)
    (h3 : f.magic_number < 256 ^ 8) (h4 : f.crc32 < 256 ^ 4) :
    decodeLogFileFooter (encodeLogFileFooter f ++ rest) = f := by
  have hform : encodeLogFileFooter f ++ rest =
      f.filetype :: f.flags :: (encodeFixed 8 f.offset_indexes ++
        (encodeFixed 8 f.num_entries ++ (encodeFixed 8 f.magic_number ++
          (encodeFixed 4 f.crc32 ++ rest)))) := by
    simp [encodeLogFileFooter]
  have hoi : (encodeLogFileFooter f ++ rest).drop 2 =
      encodeFixed 8 f.offset_indexes ++ (encodeFixed 8 f.num_entries ++
        (encodeFixed 8 f.magic_number ++ (encodeFixed 4 f.crc32 ++ rest))) := by
    rw [hform]
    rfl
  have hne : (encodeLogFileFooter f ++ rest).drop 10 =
      encodeFixed 8 f.num_entries ++ (encodeFixed 8 f.magic_number ++
        (encodeFixed 4 f.crc32 ++ rest)) := by
    have : (10 : Nat) = 2 + 8 := by norm_num
    rw [this, ← List.drop_drop, hoi, drop_append_left _ _ 8
      (by rw [length_encodeFixed])]
    simp [length_encodeFixed]
  have hmg : (encodeLogFileFooter f ++ rest).drop 18 =
      encodeFixed 8 f.magic_number ++ (encodeFixed 4 f.crc32 ++ rest) := by
    have : (18 : Nat) = 10 + 8 := by norm_num
    rw [this, ← List.drop_drop, hne, drop_append_left _ _ 8
      (by rw [length_encodeFixed])]
    simp [length_encodeFixed]
  have hcr : (encodeLogFileFooter f ++ rest).drop 26 =
      encodeFixed 4 f.crc32 ++ rest := by
    have : (26 : Nat) = 18 + 8 := by norm_num
    rw [this, ← List.drop_drop, hmg, drop_append_left _ _ 8
      (by rw [length_encodeFixed])]
    simp [length_encodeFixed]
  unfold decodeLogFileFooter
  rw [hoi, hne, hmg, hcr]
  rw [decodeFixed_encodeFixed 8 f.offset_indexes _ h1,
    decodeFixed_encodeFixed 8 f.num_entries _ h2,
    decodeFixed_encodeFixed 8 f.magic_number _ h3,
    decodeFixed_encodeFixed 4 f.crc32 _ h4]
  rw [hform]
  rfl

theorem decodeFooterIndexPairs_encode (pairs : List (Nat × Nat))
    (rest : List Nat)
    (hpairs : ∀ p ∈ pairs, p.1 < 256 ^ 8 ∧ p.2 < 256 ^ 4) :
    decodeFooterIndexPairs pairs.length
      ((pairs.map encodeFooterIndexPair).flatten ++ rest) = pairs := by
  induction pairs with
  | nil => simp [decodeFooterIndexPairs]
  | cons p ps ih =>
    have hp := hpairs p (List.mem_cons.mpr (Or.inl rfl))
    have hps : ∀ q ∈ ps, q.1 < 256 ^ 8 ∧ q.2 < 256 ^ 4 := by
      intro q hq
      exact hpairs q (List.mem_cons.mpr (Or.inr hq))
    have hbytes : ((p :: ps).map encodeFooterIndexPair).flatten ++ rest =
        encodeFixed 8 p.1 ++ (encodeFixed 4 p.2 ++
          ((ps.map encodeFooterIndexPair).flatten ++ rest)) := by
      simp [encodeFooterIndexPair]
    have hdrop8 : (((p :: ps).map encodeFooterIndexPair).flatten ++ rest).drop 8 =
        encodeFixed 4 p.2 ++ ((ps.map encodeFooterIndexPair).flatten ++ rest) := by
      rw [hbytes, drop_append_left _ _ 8 (by rw [length_encodeFixed])]
      simp [length_encodeFixed]
    have hdrop12 : (((p :: ps).map encodeFooterIndexPair).flatten ++ rest).drop 12 =
        (ps.map encodeFooterIndexPair).flatten ++ rest := by
      have h12 : (12 : Nat) = 8 + 4 := by norm_num
      rw [h12, ← List.drop_drop, hdrop8, drop_append_left _ _ 4
        (by rw [length_encodeFixed])]
      simp [length_encodeFixed]
    have hpair : decodeFooterIndexPair
        (((p :: ps).map encodeFooterIndexPair).flatten ++ rest) = p := by
      unfold decodeFooterIndexPair
      rw [hdrop8, hbytes, decodeFixed_encodeFixed 8 p.1 _ hp.1,
        decodeFixed_encodeFixed 4 p.2 _ hp.2]
    show decodeFooterIndexPair _ :: decodeFooterIndexPairs ps.length _ = p :: ps
    rw [hpair, hdrop12, ih hps]

/-- The file contents after WriteLogIndex has appended the footer region at
the end of a file whose body is the given byte list (position is the file
length found by the lseek of line 357). -/
def segmentWithFooter (body : List Nat) (pairs : List (Nat × Nat))
    (filetype : Nat) (hasPaddingInValues hasInvalidEntries : Bool) :
    List Nat :=
  body ++ writeLogIndexRegion pairs filetype hasPaddingInValues
    hasInvalidEntries body.length

theorem writeLogIndexRegion_eq (pairs : List (Nat × Nat)) (filetype : Nat)
    (hasPad hasInv : Bool) (position : Nat) :
    writeLogIndexRegion pairs filetype hasPad hasInv position =
      (pairs.map encodeFooterIndexPair).flatten ++
        encodeLogFileFooter
          { filetype := filetype,
            flags := footerFlags hasPad hasInv,
            offset_indexes := position,
            num_entries := pairs.length,
            magic_number := magicNumber,
            crc32 := crc32Model ((pairs.map encodeFooterIndexPair).flatten ++
              (filetype :: footerFlags hasPad hasInv ::
                (encodeFixed 8 position ++ (encodeFixed 8 pairs.length ++
                  encodeFixed 8 magicNumber)))) } := by
  have hsplit : encodeLogFileFooter
      { filetype := filetype, flags := footerFlags hasPad hasInv,
        offset_indexes := position, num_entries := pairs.length,
        magic_number := magicNumber, crc32 := 0 } =
      (filetype :: footerFlags hasPad hasInv ::
        (encodeFixed 8 position ++ (encodeFixed 8 pairs.length ++
          encodeFixed 8 magicNumber))) ++ encodeFixed 4 0 := by
    simp [encodeLogFileFooter]
  have htake : ∀ xs : List Nat,
      ((xs ++ encodeFixed 4 0).take ((xs ++ encodeFixed 4 0).length - 4)) = xs := by
    intro xs
    have hl : (xs ++ encodeFixed 4 0).length - 4 = xs.length := by
      simp [length_encodeFixed]
    rw [hl, List.take_left]
  simp only [writeLogIndexRegion]
  rw [hsplit, ← List.append_assoc, htake]
  simp [encodeLogFileFooter, List.append_assoc]

/-- The footer record that WriteLogIndex materializes when appending at the
given position: offset_indexes is the position, num_entries the number of
footer-index pairs, and crc32 the CRC32 of the region excluding its final 4
bytes. -/
def segFooterRecord (pairs : List (Nat × Nat)) (filetype : Nat)
    (hasPad hasInv : Bool) (position : Nat) : LogFileFooter :=
  { filetype := filetype,
    flags := footerFlags hasPad hasInv,
    offset_indexes := position,
    num_entries := pairs.length,
    magic_number := magicNumber,
    crc32 := crc32Model ((pairs.map encodeFooterIndexPair).flatten ++
      (filetype :: footerFlags hasPad hasInv ::
        (encodeFixed 8 position ++ (encodeFixed 8 pairs.length ++
          encodeFixed 8 magicNumber)))) }

theorem writeLogIndexRegion_decomp (pairs : List (Nat × Nat))
    (filetype : Nat) (hasPad hasInv : Bool) (position : Nat) :
    writeLogIndexRegion pairs filetype hasPad hasInv position =
      (pairs.map encodeFooterIndexPair).flatten ++
        encodeLogFileFooter (segFooterRecord pairs filetype hasPad hasInv
          position) := by
  rw [writeLogIndexRegion_eq]
  rfl

theorem sum_map_length_encodeFooterIndexPair (pairs : List (Nat × Nat)) :
    (pairs.map (List.length ∘ encodeFooterIndexPair)).sum = 12 * pairs.length := by
  induction pairs with
  | nil => simp
  | cons p ps ih =>
    simp [length_encodeFooterIndexPair, ih]
    ring

theorem length_writeLogIndexRegion (pairs : List (Nat × Nat))
    (filetype : Nat) (hasPad hasInv : Bool) (position : Nat) :
    (writeLogIndexRegion pairs filetype hasPad hasInv position).length =
      12 * pairs.length + 30 := by
  rw [writeLogIndexRegion_decomp]
  simp [sum_map_length_encodeFooterIndexPair, length_encodeLogFileFooter]

theorem length_segmentWithFooter (body : List Nat)
    (pairs : List (Nat × Nat)) (filetype : Nat) (hasPad hasInv : Bool) :
    (segmentWithFooter body pairs filetype hasPad hasInv).length =
      body.length + (12 * pairs.length + 30) := by
  unfold segmentWithFooter
  simp [length_writeLogIndexRegion]

theorem segmentWithFooter_drop_footer (body : List Nat)
    (pairs : List (Nat × Nat)) (filetype : Nat) (hasPad hasInv : Bool) :
    (segmentWithFooter body pairs filetype hasPad hasInv).drop
        ((segmentWithFooter body pairs filetype hasPad hasInv).length -
          logFileFooterFixedSize) =
      encodeLogFileFooter (segFooterRecord pairs filetype hasPad hasInv
        body.length) := by
  have hFile : segmentWithFooter body pairs filetype hasPad hasInv =
      (body ++ (pairs.map encodeFooterIndexPair).flatten) ++
        encodeLogFileFooter (segFooterRecord pairs filetype hasPad hasInv
          body.length) := by
    unfold segmentWithFooter
    rw [writeLogIndexRegion_decomp, List.append_assoc]
  rw [length_segmentWithFooter, hFile]
  have hcount : body.length + (12 * pairs.length + 30) -
      logFileFooterFixedSize =
      (body ++ (pairs.map encodeFooterIndexPair).flatten).length := by
    simp [sum_map_length_encodeFooterIndexPair, logFileFooterFixedSize]
    omega
  rw [hcount, List.drop_left]

theorem segFooterRecord_crc_lt (pairs : List (Nat × Nat)) (filetype : Nat)
    (hasPad hasInv : Bool) (position : Nat) :
    (segFooterRecord pairs filetype hasPad hasInv position).crc32 < 256 ^ 4 := by
  have h := crc32Model_lt ((pairs.map encodeFooterIndexPair).flatten ++
    (filetype :: footerFlags hasPad hasInv ::
      (encodeFixed 8 position ++ (encodeFixed 8 pairs.length ++
        encodeFixed 8 magicNumber))))
  have h2 : (2 : Nat) ^ 32 = 256 ^ 4 := by norm_num
  rw [h2] at h
  exact h

theorem decode_segFooterRecord (pairs : List (Nat × Nat)) (filetype : Nat)
    (hasPad hasInv : Bool) (position : Nat)
    (hpos : position < 256 ^ 8) (hnum : pairs.length < 256 ^ 8) :
    decodeLogFileFooter (encodeLogFileFooter
        (segFooterRecord pairs filetype hasPad hasInv position)) =
      segFooterRecord pairs filetype hasPad hasInv position := by
  have h := decodeLogFileFooter_encode
    (segFooterRecord pairs filetype hasPad hasInv position) []
    (by simpa [segFooterRecord] using hpos)
    (by simpa [segFooterRecord] using hnum)
    (by simp [segFooterRecord, magicNumber])
    (segFooterRecord_crc_lt pairs filetype hasPad hasInv position)
  simpa using h

theorem segmentWithFooter_drop_body (body : List Nat)
    (pairs : List (Nat × Nat)) (filetype : Nat) (hasPad hasInv : Bool) :
    (segmentWithFooter body pairs filetype hasPad hasInv).drop body.length =
      (pairs.map encodeFooterIndexPair).flatten ++
        encodeLogFileFooter (segFooterRecord pairs filetype hasPad hasInv
          body.length) := by
  unfold segmentWithFooter
  rw [writeLogIndexRegion_decomp, List.drop_left]

theorem segmentWithFooter_crc_check (body : List Nat)
    (pairs : List (Nat × Nat)) (filetype : Nat) (hasPad hasInv : Bool) :
    crc32Model (((segmentWithFooter body pairs filetype hasPad
          hasInv).drop body.length).take
        ((segmentWithFooter body pairs filetype hasPad hasInv).length -
          body.length - 4)) =
      (segFooterRecord pairs filetype hasPad hasInv body.length).crc32 := by
  rw [segmentWithFooter_drop_body, length_segmentWithFooter]
  have hsplit : (pairs.map encodeFooterIndexPair).flatten ++
      encodeLogFileFooter (segFooterRecord pairs filetype hasPad hasInv
        body.length) =
      ((pairs.map encodeFooterIndexPair).flatten ++
        (filetype :: footerFlags hasPad hasInv ::
          (encodeFixed 8 body.length ++ (encodeFixed 8 pairs.length ++
            encodeFixed 8 magicNumber)))) ++
        encodeFixed 4 (segFooterRecord pairs filetype hasPad hasInv
          body.length).crc32 := by
    simp [encodeLogFileFooter, segFooterRecord]
  have hcount : body.length + (12 * pairs.length + 30) - body.length - 4 =
      ((pairs.map encodeFooterIndexPair).flatten ++
        (filetype :: footerFlags hasPad hasInv ::
          (encodeFixed 8 body.length ++ (encodeFixed 8 pairs.length ++
            encodeFixed 8 magicNumber)))).length := by
    simp [sum_map_length_encodeFooterIndexPair, length_encodeFixed]
  rw [hsplit, hcount, List.take_left]
  rfl

/-- C8: For every footer region written by WriteLogIndex - the packed
(hash, offset) index pairs followed by the fixed footer record whose final 4
bytes are the CRC32 over the region from offset_indexes up to but not
including those bytes - decoding that region with LoadFile accepts the file
and recovers the same num_entries and the same (hash, offset) pairs in the
same order (inserted as locations fileid<<32|offset), and the CRC32
recomputed by LoadFile over the same byte range equals the stored one. -/
theorem c8_footer_roundtrip (body : List Nat) (pairs : List (Nat × Nat))
    (filetype : Nat) (hasPad hasInv : Bool) (fileid : Nat)
    (hpairs : ∀ p ∈ pairs, p.1 < 256 ^ 8 ∧ p.2 < 256 ^ 4)
    (hpos : body.length < 256 ^ 8) (hnum : pairs.length < 256 ^ 8) :
    loadFile fileid (segmentWithFooter body pairs filetype hasPad hasInv) =
      some (pairs.length,
        pairs.map (fun p => (p.1, makeLocation fileid p.2))) ∧
    decodeFooterIndexPairs pairs.length
        ((segmentWithFooter body pairs filetype hasPad hasInv).drop
          body.length) = pairs ∧
    crc32Model (((segmentWithFooter body pairs filetype hasPad
          hasInv).drop body.length).take
        ((segmentWithFooter body pairs filetype hasPad hasInv).length -
          body.length - 4)) =
      (decodeLogFileFooter ((segmentWithFooter body pairs filetype hasPad
          hasInv).drop ((segmentWithFooter body pairs filetype hasPad
            hasInv).length - logFileFooterFixedSize))).crc32 := by
  have hdec : decodeLogFileFooter ((segmentWithFooter body pairs filetype
      hasPad hasInv).drop ((segmentWithFooter body pairs filetype hasPad
        hasInv).length - logFileFooterFixedSize)) =
      segFooterRecord pairs filetype hasPad hasInv body.length := by
    rw [segmentWithFooter_drop_footer]
    exact decode_segFooterRecord pairs filetype hasPad hasInv body.length
      hpos hnum
  have hdecpairs : decodeFooterIndexPairs pairs.length
      ((segmentWithFooter body pairs filetype hasPad hasInv).drop
        body.length) = pairs := by
    rw [segmentWithFooter_drop_body]
    exact decodeFooterIndexPairs_encode pairs _ hpairs
  have hcrc := segmentWithFooter_crc_check body pairs filetype hasPad hasInv
  refine ⟨?_, hdecpairs, by rw [hcrc, hdec]⟩
  have hnotlt : ¬ (segmentWithFooter body pairs filetype hasPad
      hasInv).length < logFileFooterFixedSize := by
    rw [length_segmentWithFooter]
    unfold logFileFooterFixedSize
    omega
  simp only [loadFile]
  rw [if_neg hnotlt, hdec]
  have hmag : ¬ ((segFooterRecord pairs filetype hasPad hasInv
      body.length).magic_number ≠ magicNumber) := by
    simp [segFooterRecord]
  rw [if_neg hmag]
  have hoff : (segFooterRecord pairs filetype hasPad hasInv
      body.length).offset_indexes = body.length := rfl
  rw [hoff]
  rw [if_neg (by rw [hcrc]; simp)]
  have hne : (segFooterRecord pairs filetype hasPad hasInv
      body.length).num_entries = pairs.length := rfl
  rw [hne, hdecpairs]

/-! ## Orders, entries and the write-path state (C7, C3, C10)

The Order and Entry types live in kingdb/common.h, outside src/; their
fields and predicates are modelled from the spec (section 3).  The write
path of LogfileManager mutates the active buffer, the per-file byte
contents, the file resource manager maps and the per-thread chunk-tracking
maps; all of them are carried in an explicit EngineState record.  Byte
writes follow POSIX semantics: pwrite beyond the end of a file fills the gap
with zero bytes, ftruncate extends with zeros or cuts. -/

inductive OrderType where
  | put
  | remove
deriving DecidableEq, Repr

structure Order where
  tid : Nat
  type : OrderType
  key : List Nat
  chunk : List Nat
  offset_chunk : Nat
  size_value : Nat
  size_value_compressed : Nat
  crc32 : Nat
deriving DecidableEq, Repr

/-- Modelled from the spec: Order::IsFirstChunk - the chunk that starts at
offset 0 of the logical value. -/
def isFirstChunk (o : Order) : Bool := o.offset_chunk = 0

/-- Modelled from the spec: size_value_used - the compressed size when the
entry is compressed and the raw size otherwise; compression is signalled by
a nonzero size_value_compressed. -/
def orderSizeValueUsed (o : Order) : Nat :=
  if o.size_value_compressed ≠ 0 then o.size_value_compressed
  else o.size_value

/-- Modelled from the spec: Order::IsLastChunk - the chunk whose bytes end
the used value region. -/
def isLastChunk (o : Order) : Bool :=
  o.offset_chunk + o.chunk.length = orderSizeValueUsed o

/-- Modelled from the spec: Order::IsSelfContained - first and last chunk in
a single submission. -/
def isSelfContained (o : Order) : Bool := isFirstChunk o && isLastChunk o

structure Entry where
  isRemove : Bool
  isFull : Bool
  hasPadding : Bool
  size_key : Nat
  size_value : Nat
  size_value_compressed : Nat
  hash : Nat
  crc32 : Nat
deriving DecidableEq, Repr

/-- Modelled from the spec: Entry::IsCompressed. -/
def entryIsCompressed (e : Entry) : Bool := e.size_value_compressed ≠ 0

/-- Modelled from the spec: Entry::size_value_used. -/
def entrySizeValueUsed (e : Entry) : Nat :=
  if entryIsCompressed e then e.size_value_compressed else e.size_value

/-- Modelled from the spec: the flags byte of the entry header. -/
def entryFlags (e : Entry) : Nat :=
  (if e.isRemove then 1 else 0) + (if e.isFull then 2 else 0) +
    (if e.hasPadding then 4 else 0)

/-- Modelled from the spec: Entry::EncodeTo.  The first 4 bytes are the
CRC32 so it can be excluded from checksum input; the spec leaves the size
encoding implementation-defined but deterministic and stable under header
rewrites, which this fixed-width layout satisfies.  The encoded size is
always 37 bytes. -/
def encodeEntryHeader (e : Entry) : List Nat :=
  encodeFixed 4 e.crc32 ++ ([entryFlags e] ++ (encodeFixed 8 e.size_key ++
    (encodeFixed 8 e.size_value ++ (encodeFixed 8 e.size_value_compressed ++
      encodeFixed 8 e.hash))))

/-- Modelled from the spec: crc32c::Combine.  Any deterministic function of
the two checksums and the length works for the claims settled here. -/
def crc32CombineModel (a b n : Nat) : Nat := (a * 31 + b * 17 + n) % 2 ^ 32

/-- File type tags (values implementation-defined per the spec). -/
def kUncompactedLogType : Nat := 1

def kCompactedLogType : Nat := 2

def kCompactedLargeType : Nat := 3

/-- Modelled from the spec: LogFileHeader::EncodeTo - the file type tag and
the 64-bit timestamp, padded to SIZE_LOGFILE_HEADER bytes. -/
def encodeLogFileHeader (filetype timestamp : Nat) : List Nat :=
  filetype :: encodeFixed 8 timestamp ++
    List.replicate (SIZE_LOGFILE_HEADER - 9) 0

/-- POSIX pwrite on an in-memory file: zero-fill up to the write position if
the file is shorter, overwrite the target range, keep the bytes after it. -/
def writeAt (file : List Nat) (pos : Nat) (data : List Nat) : List Nat :=
  (file.take pos ++ List.replicate (pos - file.length) 0) ++ data ++
    file.drop (pos + data.length)

/-- POSIX ftruncate on an in-memory file: cut to the new length or extend
with zero bytes. -/
def resizeTo (file : List Nat) (n : Nat) : List Nat :=
  file.take n ++ List.replicate (n - file.length) 0

/-- Association-list lookup for the engine's maps. -/
def alookup {κ α : Type} [DecidableEq κ] (l : List (κ × α)) (k : κ) :
    Option α :=
  (l.find? (fun p => decide (p.1 = k))).map (fun p => p.2)

/-- Association-list update for the engine's maps. -/
def aupdate {κ α : Type} [DecidableEq κ] (l : List (κ × α)) (k : κ)
    (v : α) : List (κ × α) :=
  (k, v) :: l.filter (fun p => decide (¬ p.1 = k))

/-- Association-list erase for the engine's maps. -/
def aerase {κ α : Type} [DecidableEq κ] (l : List (κ × α)) (k : κ) :
    List (κ × α) :=
  l.filter (fun p => decide (¬ p.1 = k))

/-- The C++ uint64 decrement used by SetNumWritesInProgress(fileid, -1). -/
def wipDecValue (n : Nat) : Nat := (n + 2 ^ 64 - 1) % 2 ^ 64

/-- State of a LogfileManager together with its FileResourceManager and the
per-order output map of WriteOrdersAndFlushFile.  files maps each fileid to
its on-disk bytes; logindexes is the pending footer index of each file;
mapIndexOut is map_index_out. -/
structure EngineState where
  seqFileid : Nat
  ts : TSState
  hasFile : Bool
  fileid : Nat
  sizeBlock : Nat
  filetypeDefault : Nat
  bufferRaw : List Nat
  offsetStart : Nat
  offsetEnd : Nat
  bufferHasItems : Bool
  files : List (Nat × List Nat)
  filesizes : List (Nat × Nat)
  wip : List (Nat × Nat)
  logindexes : List (Nat × List (Nat × Nat))
  hasPaddingFiles : List Nat
  largeFiles : List Nat
  keyToLocation : List ((Nat × List Nat) × Nat)
  keyToHeadersize : List ((Nat × List Nat) × Nat)
  mapIndexOut : List (Nat × Nat)
deriving DecidableEq, Repr

/-- GetNumWritesInProgress: absent entries read as 0. -/
def wipGet (st : EngineState) (fileid : Nat) : Nat :=
  (alookup st.wip fileid).getD 0

/-- The on-disk bytes of a file. -/
def fileBytes (st : EngineState) (fileid : Nat) : List Nat :=
  (alookup st.files fileid).getD []

/-- The pending footer index of a file (FileResourceManager::GetLogIndex). -/
def logIndexOf (st : EngineState) (fileid : Nat) : List (Nat × Nat) :=
  (alookup st.logindexes fileid).getD []

/-- FlushLogIndex (lines 326-338): when there is an active file and its
writes_in_progress counter is 0, append the footer region built from the
pending footer index at the end of the file and grow the recorded filesize;
otherwise do nothing. -/
def flushLogIndexOp (st : EngineState) : EngineState :=
  if st.hasFile = false then st
  else if wipGet st st.fileid = 0 then
    let file := fileBytes st st.fileid
    let region := writeLogIndexRegion (logIndexOf st st.fileid)
      st.filetypeDefault (st.hasPaddingFiles.contains st.fileid) false
      file.length
    { st with files := aupdate st.files st.fileid (file ++ region),
              filesizes := aupdate st.filesizes st.fileid
                ((alookup st.filesizes st.fileid).getD 0 + region.length) }
  else st

/-- CloseCurrentFile (lines 279-288). -/
def closeCurrentFile (st : EngineState) : EngineState :=
  if st.hasFile = false then st
  else
    let st1 := flushLogIndexOp st
    { st1 with bufferHasItems := false, hasFile := false }

/-- FlushCurrentFile (lines 290-323): write the buffered byte range to the
active file, apply the requested padding via ftruncate, and close the file
when it reached the segment budget or a rotation was forced. -/
def flushCurrentFile (forceNewFile : Bool) (padding : Nat)
    (st : EngineState) : EngineState :=
  if st.hasFile = false then st
  else
    let st1 :=
      if st.bufferHasItems then
        { st with
            files := aupdate st.files st.fileid (fileBytes st st.fileid ++
              ((st.bufferRaw.drop st.offsetStart).take
                (st.offsetEnd - st.offsetStart))),
            filesizes := aupdate st.filesizes st.fileid st.offsetEnd,
            offsetStart := st.offsetEnd,
            bufferHasItems := false }
      else st
    let st2 :=
      if padding ≠ 0 then
        { st1 with
            offsetEnd := st1.offsetEnd + padding,
            offsetStart := st1.offsetEnd + padding,
            filesizes := aupdate st1.filesizes st1.fileid
              (st1.offsetEnd + padding),
            files := aupdate st1.files st1.fileid
              (resizeTo (fileBytes st1 st1.fileid)
                (st1.offsetEnd + padding)) }
      else st1
    if st2.offsetEnd ≥ st2.sizeBlock ∨
        (forceNewFile = true ∧ st2.offsetEnd > SIZE_LOGFILE_HEADER) then
      closeCurrentFile
        { st2 with filesizes := (aupdate st2.filesizes st2.fileid
            st2.offsetEnd) }
    else st2

/-- WriteFirstChunkLargeOrder (lines 382-440): allocate a fresh fileid and
timestamp, write the file header, an entry header with a zero CRC32 and no
padding flag, the key and the first chunk, truncate the file to the full
declared entry size, record one write in progress for the new fileid and
return location fileid<<32 | SIZE_LOGFILE_HEADER. -/
def writeFirstChunkLargeOrder (o : Order) (hashedKey : Nat)
    (st : EngineState) : EngineState × Nat :=
  let fileidLarge := st.seqFileid + 1
  let tsPair := incrementSequenceTimestamp 1 st.ts
  let entry : Entry :=
    { isRemove := false, isFull := true, hasPadding := false,
      size_key := o.key.length, size_value := o.size_value,
      size_value_compressed := o.size_value_compressed,
      hash := hashedKey, crc32 := 0 }
  let entryBytes := encodeEntryHeader entry
  let sizeHeader := entryBytes.length
  let written := encodeLogFileHeader kCompactedLargeType tsPair.2 ++
    entryBytes ++ o.key ++ o.chunk
  let filesize := SIZE_LOGFILE_HEADER + sizeHeader + o.key.length +
    o.size_value
  ({ st with
      seqFileid := fileidLarge,
      ts := tsPair.1,
      files := aupdate st.files fileidLarge (resizeTo written filesize),
      filesizes := aupdate st.filesizes fileidLarge filesize,
      keyToHeadersize := aupdate st.keyToHeadersize (o.tid, o.key)
        sizeHeader,
      wip := aupdate st.wip fileidLarge (wipGet st fileidLarge + 1) },
    makeLocation fileidLarge SIZE_LOGFILE_HEADER)

/-- The on-disk bytes of the target file of WriteChunk after the chunk
pwrite (line 462), the last-chunk header rewrite (line 501) and the
compressed-large truncation (line 508), before the footer decision. -/
def writeChunkBytes (o : Order) (hashedKey : Nat) (location : Nat)
    (isLargeOrder : Bool) (st : EngineState) : List Nat :=
  let fileid := fileidOf location
  let offsetFile := offsetOf location
  let sizeHeader := (alookup st.keyToHeadersize (o.tid, o.key)).getD 0
  let file1 := writeAt (fileBytes st fileid)
    (offsetFile + sizeHeader + o.key.length + o.offset_chunk) o.chunk
  if isLastChunk o then
    let entry0 : Entry :=
      { isRemove := false, isFull := true,
        hasPadding := isLargeOrder = false ∧
          o.size_value_compressed ≠ 0,
        size_key := o.key.length, size_value := o.size_value,
        size_value_compressed := o.size_value_compressed,
        hash := hashedKey, crc32 := 0 }
    let crcHeader := crc32Model ((encodeEntryHeader entry0).drop 4)
    let entryF := { entry0 with crc32 := (crc32CombineModel crcHeader o.crc32
      (entry0.size_key + entrySizeValueUsed entry0)) }
    let file2 := writeAt file1 offsetFile
      ((encodeEntryHeader entryF).take sizeHeader)
    if isLargeOrder = true ∧ o.size_value_compressed ≠ 0 then
      resizeTo file2 (SIZE_LOGFILE_HEADER + sizeHeader + o.key.length +
        o.size_value_compressed)
    else file2
  else file1

/-- WriteChunk (lines 443-529): pwrite the chunk at its reserved position;
on the last chunk rewrite the entry header with the finalized compressed
size, padding flag and combined CRC32, truncate a compressed large file,
decrement writes_in_progress, and append a footer to the file right away
when it is not the active file and its counter reached 0 (followed by
ResetDataForFileId); return the location unchanged. -/
def writeChunk (o : Order) (hashedKey : Nat) (location : Nat)
    (isLargeOrder : Bool) (st : EngineState) : EngineState × Nat :=
  let fileid := fileidOf location
  let sizeHeader := (alookup st.keyToHeadersize (o.tid, o.key)).getD 0
  let bytes := writeChunkBytes o hashedKey location isLargeOrder st
  if isLastChunk o then
    let filesizes1 :=
      if isLargeOrder = true ∧ o.size_value_compressed ≠ 0 then
        aupdate st.filesizes fileid (SIZE_LOGFILE_HEADER + sizeHeader +
          o.key.length + o.size_value_compressed)
      else st.filesizes
    let hasPad1 :=
      if isLargeOrder = false ∧ o.size_value_compressed ≠ 0 then
        st.fileid :: st.hasPaddingFiles
      else st.hasPaddingFiles
    let wipNew := wipDecValue (wipGet st fileid)
    let st1 := { st with
      files := aupdate st.files fileid bytes,
      filesizes := filesizes1, hasPaddingFiles := hasPad1,
      wip := aupdate st.wip fileid wipNew }
    if fileid ≠ st.fileid ∧ wipNew = 0 then
      let region := writeLogIndexRegion (logIndexOf st fileid)
        (if isLargeOrder then kCompactedLargeType else st.filetypeDefault)
        (hasPad1.contains fileid) false bytes.length
      let st2 := { st1 with
        files := aupdate st1.files fileid (bytes ++ region),
        filesizes := aupdate filesizes1 fileid
          ((alookup filesizes1 fileid).getD 0 + region.length),
        largeFiles := if isLargeOrder then fileid :: st.largeFiles
          else st.largeFiles,
        wip := aerase st1.wip fileid,
        logindexes := aerase st.logindexes fileid,
        hasPaddingFiles := hasPad1.filter (fun f => decide (¬ f = fileid)) }
      (st2, location)
    else (st1, location)
  else
    ({ st with files := aupdate st.files fileid bytes }, location)

/-- WriteFirstChunkOrSmallOrder (lines 532-607): encode the entry header,
key and chunk into the active buffer at offset_end_, recompute the combined
CRC32 in place for self-contained puts, append (hash, offset_end_) to the
pending footer index, advance offset_end_; a non-self-contained put also
records the header size for later chunks, raises writes_in_progress of the
active file and reserves the declared value size via a padding flush;
removes encode a valueless remove entry.  Returns the location. -/
def writeFirstChunkOrSmallOrder (o : Order) (hashedKey : Nat)
    (st : EngineState) : EngineState × Nat :=
  if o.type = OrderType.put then
    let entry0 : Entry :=
      { isRemove := false, isFull := true,
        hasPadding := ¬ (isSelfContained o = true),
        size_key := o.key.length, size_value := o.size_value,
        size_value_compressed := o.size_value_compressed,
        hash := hashedKey, crc32 := o.crc32 }
    let sizeHeader := (encodeEntryHeader entry0).length
    let entryF :=
      if isSelfContained o then
        let crcHeader := crc32Model ((encodeEntryHeader entry0).drop 4)
        { entry0 with crc32 := (crc32CombineModel crcHeader o.crc32
          (entry0.size_key + entrySizeValueUsed entry0)) }
      else entry0
    let buf := writeAt st.bufferRaw st.offsetEnd
      (encodeEntryHeader entryF ++ o.key ++ o.chunk)
    let location := makeLocation st.fileid st.offsetEnd
    let st1 := { st with
      bufferRaw := buf,
      logindexes := aupdate st.logindexes st.fileid
        (logIndexOf st st.fileid ++ [(hashedKey, st.offsetEnd)]),
      offsetEnd := st.offsetEnd + sizeHeader + o.key.length +
        o.chunk.length,
      hasPaddingFiles :=
        if isSelfContained o then st.hasPaddingFiles
        else st.fileid :: st.hasPaddingFiles }
    if isSelfContained o then (st1, location)
    else
      let st2 := { st1 with
        keyToHeadersize := aupdate st1.keyToHeadersize (o.tid, o.key)
          sizeHeader,
        wip := aupdate st1.wip st1.fileid (wipGet st1 st1.fileid + 1) }
      (flushCurrentFile false (o.size_value - o.chunk.length) st2, location)
  else
    let entry : Entry :=
      { isRemove := true, isFull := true, hasPadding := false,
        size_key := o.key.length, size_value := 0,
        size_value_compressed := 0, hash := 0, crc32 := 0 }
    let sizeHeader := (encodeEntryHeader entry).length
    let buf := writeAt st.bufferRaw st.offsetEnd
      (encodeEntryHeader entry ++ o.key)
    let location := makeLocation st.fileid st.offsetEnd
    ({ st with
        bufferRaw := buf,
        logindexes := aupdate st.logindexes st.fileid
          (logIndexOf st st.fileid ++ [(hashedKey, st.offsetEnd)]),
        offsetEnd := st.offsetEnd + sizeHeader + o.key.length },
      location)

/-- Lines 667-689 of WriteOrdersAndFlushFile: a completed entry with a
nonzero location joins map_index_out and its chunk-tracking entries are
erased; an incomplete first chunk of a put with a nonzero location is
recorded in key_to_location. -/
def finalizeOrder (o : Order) (hashedKey location : Nat)
    (st : EngineState) : EngineState :=
  if isSelfContained o = true ∨ isLastChunk o = true then
    let st1 :=
      if location ≠ 0 then
        { st with mapIndexOut := st.mapIndexOut ++ [(hashedKey, location)] }
      else st
    { st1 with
        keyToLocation := aerase st1.keyToLocation (o.tid, o.key),
        keyToHeadersize := aerase st1.keyToHeadersize (o.tid, o.key) }
  else if isFirstChunk o then
    if location ≠ 0 ∧ o.type ≠ OrderType.remove then
      { st with keyToLocation := (aupdate st.keyToLocation (o.tid, o.key)
          location) }
    else st
  else st

/-- The per-order body of WriteOrdersAndFlushFile (lines 619-689): compute
the hash, classify the order as large-first-chunk, non-first chunk or
first-or-small, run the matching write function (a non-first chunk whose
(tid, key) has no recorded location is not written), and do the
map_index_out / key_to_location bookkeeping.  The active-file maintenance
of lines 612-617 (OpenNewFile, forced rotation) precedes this body and is
not part of it. -/
def routeOrder (hashFn : List Nat → Nat) (o : Order) (st : EngineState) :
    EngineState :=
  let hashedKey := hashFn o.key
  let isLargeOrder : Bool := decide (o.key.length + o.size_value > st.sizeBlock)
  if isLargeOrder = true ∧ isFirstChunk o = true then
    let p := writeFirstChunkLargeOrder o hashedKey st
    finalizeOrder o hashedKey p.2 p.1
  else if o.offset_chunk ≠ 0 then
    let location := (alookup st.keyToLocation (o.tid, o.key)).getD 0
    let st1 :=
      if location ≠ 0 then
        (writeChunk o hashedKey location isLargeOrder st).1
      else st
    finalizeOrder o hashedKey location st1
  else
    let p := writeFirstChunkOrSmallOrder o hashedKey
      { st with bufferHasItems := true }
    finalizeOrder o hashedKey p.2 p.1

theorem alookup_aupdate_self {κ α : Type} [DecidableEq κ]
    (l : List (κ × α)) (k : κ) (v : α) :
    alookup (aupdate l k v) k = some v := by
  simp [alookup, aupdate, List.find?]

theorem length_encodeEntryHeader (e : Entry) :
    (encodeEntryHeader e).length = 37 := by
  simp [encodeEntryHeader, length_encodeFixed]

/-- C7: An order that is the first chunk of a large entry (size_key +
size_value above the segment budget) is routed to WriteFirstChunkLargeOrder,
which allocates the fresh fileid seq+1, writes the file header followed by
an entry header with crc32 = 0 and has_padding = false, then the key and the
first chunk bytes, truncates the file to SIZE_LOGFILE_HEADER +
entry-header-size + size_key + size_value, sets writes_in_progress of the
new fileid to 1, and returns location fileid<<32 | SIZE_LOGFILE_HEADER. -/
theorem c7_large_first_chunk_write (st : EngineState) (o : Order)
    (hashFn : List Nat → Nat) (hashedKey : Nat)
    (hwip : wipGet st (st.seqFileid + 1) = 0) :
    (writeFirstChunkLargeOrder o hashedKey st).2 =
        makeLocation (st.seqFileid + 1) SIZE_LOGFILE_HEADER ∧
      (writeFirstChunkLargeOrder o hashedKey st).1.seqFileid =
        st.seqFileid + 1 ∧
      alookup (writeFirstChunkLargeOrder o hashedKey st).1.files
          (st.seqFileid + 1) =
        some (resizeTo
          (encodeLogFileHeader kCompactedLargeType
              (incrementSequenceTimestamp 1 st.ts).2 ++
            encodeEntryHeader
              { isRemove := false, isFull := true, hasPadding := false,
                size_key := o.key.length, size_value := o.size_value,
                size_value_compressed := o.size_value_compressed,
                hash := hashedKey, crc32 := 0 } ++ o.key ++ o.chunk)
          (SIZE_LOGFILE_HEADER + 37 + o.key.length + o.size_value)) ∧
      alookup (writeFirstChunkLargeOrder o hashedKey st).1.filesizes
          (st.seqFileid + 1) =
        some (SIZE_LOGFILE_HEADER + 37 + o.key.length + o.size_value) ∧
      wipGet (writeFirstChunkLargeOrder o hashedKey st).1
        (st.seqFileid + 1) = 1 ∧
      (o.key.length + o.size_value > st.sizeBlock → isFirstChunk o = true →
        routeOrder hashFn o st =
          finalizeOrder o (hashFn o.key)
            (writeFirstChunkLargeOrder o (hashFn o.key) st).2
            (writeFirstChunkLargeOrder o (hashFn o.key) st).1) := by
  refine ⟨rfl, rfl, ?_, ?_, ?_, ?_⟩
  · simp only [writeFirstChunkLargeOrder, length_encodeEntryHeader]
    exact alookup_aupdate_self _ _ _
  · simp only [writeFirstChunkLargeOrder, length_encodeEntryHeader]
    exact alookup_aupdate_self _ _ _
  · simp only [writeFirstChunkLargeOrder, wipGet]
    rw [alookup_aupdate_self]
    simp only [Option.getD_some]
    have : wipGet st (st.seqFileid + 1) = 0 := hwip
    unfold wipGet at this
    omega
  · intro hlarge hfirst
    unfold routeOrder
    have hcond : (decide (o.key.length + o.size_value > st.sizeBlock) = true ∧
        isFirstChunk o = true) := ⟨by simpa using hlarge, hfirst⟩
    simp only [if_pos hcond]

/-- A concrete state for the C3 counterexample: fileid 1 is the active file,
60 bytes long on disk, with one write in progress and a pending footer
index entry. -/
def c3State : EngineState :=
  { seqFileid := 1, ts := { ts := 0, locked := false }, hasFile := true,
    fileid := 1, sizeBlock := 1000, filetypeDefault := 1,
    bufferRaw := [], offsetStart := 60, offsetEnd := 60,
    bufferHasItems := false,
    files := [(1, List.replicate 60 0)], filesizes := [(1, 60)],
    wip := [(1, 1)], logindexes := [(1, [(99, 16)])],
    hasPaddingFiles := [], largeFiles := [],
    keyToLocation := [((5, [7]), makeLocation 1 16)],
    keyToHeadersize := [((5, [7]), 37)],
    mapIndexOut := [] }

/-- The last chunk of the in-flight entry of c3State. -/
def c3Order : Order :=
  { tid := 5, type := OrderType.put, key := [7], chunk := [8],
    offset_chunk := 1, size_value := 2, size_value_compressed := 0,
    crc32 := 0 }

set_option maxRecDepth 100000

/-- C3 counterexample: the last in-flight chunk of fileid 1 completes while
fileid 1 is still the active file; writes_in_progress reaches 0 at that
moment, yet WriteChunk appends no footer (the file stays 60 bytes long; a
footer region is at least 30 bytes, and the pending footer index is left in
place), because line 512 also requires fileid != fileid_.  The claim's
biconditional - a footer is appended iff the counter is 0 at the moment the
last in-flight chunk completes or the file is closed - therefore fails at
this input. -/
theorem c3_counterexample :
    isLastChunk c3Order = true ∧
      wipGet (writeChunk c3Order 9 (makeLocation 1 16) false c3State).1 1 =
        0 ∧
      (fileBytes (writeChunk c3Order 9 (makeLocation 1 16) false
        c3State).1 1).length = 60 ∧
      (fileBytes c3State 1).length = 60 ∧
      logIndexOf (writeChunk c3Order 9 (makeLocation 1 16) false
        c3State).1 1 = [(99, 16)] := by
  refine ⟨by decide, by decide, by decide, by decide, by decide⟩

/-- C3 (amended): a footer is appended when FlushLogIndex runs at file close
with writes_in_progress equal to 0, and when the last in-flight chunk of a
file other than the active one brings the counter to 0; closing a file with
a nonzero counter writes no footer, and when the last chunk completes while
the file is still the active one (or leaves the counter nonzero) no footer
is appended at that moment - it is deferred to the file's close. -/
theorem c3_amended_footer_conditions (st : EngineState) (o : Order)
    (hashedKey location : Nat) (isLargeOrder : Bool) :
    (st.hasFile = true → wipGet st st.fileid = 0 →
      fileBytes (flushLogIndexOp st) st.fileid =
        fileBytes st st.fileid ++
          writeLogIndexRegion (logIndexOf st st.fileid) st.filetypeDefault
            (st.hasPaddingFiles.contains st.fileid) false
            (fileBytes st st.fileid).length) ∧
    (st.hasFile = true → wipGet st st.fileid ≠ 0 →
      flushLogIndexOp st = st) ∧
    (isLastChunk o = true → fileidOf location ≠ st.fileid →
      wipDecValue (wipGet st (fileidOf location)) = 0 →
      fileBytes (writeChunk o hashedKey location isLargeOrder st).1
          (fileidOf location) =
        writeChunkBytes o hashedKey location isLargeOrder st ++
          writeLogIndexRegion (logIndexOf st (fileidOf location))
            (if isLargeOrder then kCompactedLargeType
              else st.filetypeDefault)
            (st.hasPaddingFiles.contains (fileidOf location)) false
            (writeChunkBytes o hashedKey location isLargeOrder
              st).length) ∧
    (isLastChunk o = true →
      (fileidOf location = st.fileid ∨
        wipDecValue (wipGet st (fileidOf location)) ≠ 0) →
      fileBytes (writeChunk o hashedKey location isLargeOrder st).1
          (fileidOf location) =
        writeChunkBytes o hashedKey location isLargeOrder st) ∧
    (isLastChunk o = false →
      fileBytes (writeChunk o hashedKey location isLargeOrder st).1
          (fileidOf location) =
        writeChunkBytes o hashedKey location isLargeOrder st) := by
  refine ⟨?_, ?_, ?_, ?_, ?_⟩
  · intro h1 h2
    unfold flushLogIndexOp
    rw [if_neg (show ¬ st.hasFile = false by simp [h1]), if_pos h2]
    unfold fileBytes
    rw [alookup_aupdate_self]
    rfl
  · intro h1 h2
    unfold flushLogIndexOp
    rw [if_neg (show ¬ st.hasFile = false by simp [h1]), if_neg h2]
  · intro hlast hfid hwip0
    have hcont : (if isLargeOrder = false ∧ o.size_value_compressed ≠ 0
        then st.fileid :: st.hasPaddingFiles
        else st.hasPaddingFiles).contains (fileidOf location) =
        st.hasPaddingFiles.contains (fileidOf location) := by
      by_cases hc : isLargeOrder = false ∧ o.size_value_compressed ≠ 0
      · rw [if_pos hc]
        have hne : (fileidOf location == st.fileid) = false := by
          simpa using hfid
        simp only [List.contains_cons, hne, Bool.false_or]
      · rw [if_neg hc]
    unfold writeChunk
    rw [if_pos hlast, if_pos ⟨hfid, hwip0⟩]
    unfold fileBytes
    rw [alookup_aupdate_self]
    rw [hcont]
    rfl
  · intro hlast hor
    have hneg : ¬ (fileidOf location ≠ st.fileid ∧
        wipDecValue (wipGet st (fileidOf location)) = 0) := by
      rcases hor with h | h
      · intro hc
        exact hc.1 h
      · intro hc
        exact h hc.2
    unfold writeChunk
    rw [if_pos hlast, if_neg hneg]
    unfold fileBytes
    rw [alookup_aupdate_self]
    rfl
  · intro hlast
    unfold writeChunk
    rw [if_neg (show ¬ isLastChunk o = true by simp [hlast])]
    unfold fileBytes
    rw [alookup_aupdate_self]
    rfl

/-- C10: When an order with a nonzero offset_chunk (a non-first chunk)
arrives and key_to_location holds no location for its (tid, key) pair,
WriteOrdersAndFlushFile performs no disk write for that order and, even when
the order is marked as the last chunk, inserts no (hash, location) pair into
map_index_out; the files, filesizes, pending footer indexes and
writes_in_progress counters are unchanged by that order. -/
theorem c10_missing_location_order_has_no_effect (hashFn : List Nat → Nat)
    (o : Order) (st : EngineState)
    (hchunk : o.offset_chunk ≠ 0)
    (hloc : alookup st.keyToLocation (o.tid, o.key) = none) :
    (routeOrder hashFn o st).files = st.files ∧
      (routeOrder hashFn o st).filesizes = st.filesizes ∧
      (routeOrder hashFn o st).logindexes = st.logindexes ∧
      (routeOrder hashFn o st).mapIndexOut = st.mapIndexOut ∧
      (routeOrder hashFn o st).wip = st.wip := by
  have hfirst : isFirstChunk o = false := by
    simp [isFirstChunk, hchunk]
  have hbranch1 : ¬ ((decide (o.key.length + o.size_value > st.sizeBlock) :
      Bool) = true ∧ isFirstChunk o = true) := by
    intro hc
    rw [hfirst] at hc
    exact Bool.false_ne_true hc.2
  have hloc0 : (alookup st.keyToLocation (o.tid, o.key)).getD 0 = 0 := by
    rw [hloc]
    rfl
  have hroute : routeOrder hashFn o st =
      finalizeOrder o (hashFn o.key) 0 st := by
    unfold routeOrder
    rw [if_neg hbranch1, if_pos hchunk]
    simp [hloc0]
  rw [hroute]
  have hself : isSelfContained o = false := by
    simp [isSelfContained, hfirst]
  unfold finalizeOrder
  by_cases hlast : isLastChunk o = true
  · rw [if_pos (Or.inr hlast)]
    rw [if_neg (show ¬ (0 : Nat) ≠ 0 by simp)]
    exact ⟨rfl, rfl, rfl, rfl, rfl⟩
  · rw [if_neg (by
      intro hc
      rcases hc with hc | hc
      · rw [hself] at hc
        exact Bool.false_ne_true hc
      · exact hlast hc)]
    rw [if_neg (show ¬ isFirstChunk o = true by simp [hfirst])]
    exact ⟨rfl, rfl, rfl, rfl, rfl⟩

/-- An engine state with no open file, no tracked chunks and no files. -/
def emptyEngineState : EngineState :=
  { seqFileid := 0, ts := { ts := 0, locked := false }, hasFile := false,
    fileid := 0, sizeBlock := 10, filetypeDefault := 1,
    bufferRaw := [], offsetStart := 0, offsetEnd := 0,
    bufferHasItems := false, files := [], filesizes := [], wip := [],
    logindexes := [], hasPaddingFiles := [], largeFiles := [],
    keyToLocation := [], keyToHeadersize := [], mapIndexOut := [] }

/-- Witness for C4 at a concrete input: candidates [5, 6] with equal keys,
nothing large; the newest in-range occurrence 6 is kept as regular and the
older occurrence 5 is marked for deletion. -/
theorem c4_witness :
    6 ∈ (compactionCandidateScan (fun _ => false) 10
        (fun _ => { key := [1], isRemove := false }) [5, 6]).keepRegular ∧
      5 ∈ (compactionCandidateScan (fun _ => false) 10
        (fun _ => { key := [1], isRemove := false }) [5, 6]).del := by
  have h := c4_compaction_selection_decisions (fun _ => false) 10
    (fun _ => { key := [1], isRemove := false }) [5, 6]
    (fun loc hl => absurd hl (by simp))
  constructor
  · exact (h.2.1 [] 6 [5] (by decide) (by decide)
      (by intro l hl; simp at hl)).1 rfl rfl
  · exact h.2.2 [6] 5 [] (by decide) (by decide)
      ⟨6, by simp, by decide, rfl⟩

/-- The first chunk of a large entry used as the C7 witness. -/
def c7Order : Order :=
  { tid := 1, type := OrderType.put, key := [1, 2], chunk := [3],
    offset_chunk := 0, size_value := 20, size_value_compressed := 0,
    crc32 := 7 }

/-- Witness for C7 at a concrete input: the dedicated file gets fileid 1,
the order's location is 1<<32 | SIZE_LOGFILE_HEADER and one write is in
progress. -/
theorem c7_witness :
    (writeFirstChunkLargeOrder c7Order 42 emptyEngineState).2 =
        makeLocation 1 SIZE_LOGFILE_HEADER ∧
      wipGet (writeFirstChunkLargeOrder c7Order 42 emptyEngineState).1 1 =
        1 ∧
      alookup (writeFirstChunkLargeOrder c7Order 42
          emptyEngineState).1.filesizes 1 = some (16 + 37 + 2 + 20) := by
  have h := c7_large_first_chunk_write emptyEngineState c7Order
    (fun _ => 42) 42 (by decide)
  exact ⟨h.1, h.2.2.2.2.1, h.2.2.2.1⟩

/-- Witness for C8 at a concrete input: a 2-byte body and one footer pair
round-trip through WriteLogIndex and LoadFile. -/
theorem c8_witness :
    loadFile 3 (segmentWithFooter [0, 0] [(7, 16)] 1 false false) =
      some (1, [(7, makeLocation 3 16)]) := by
  have h := c8_footer_roundtrip [0, 0] [(7, 16)] 1 false false 3
    (by decide) (by decide) (by decide)
  exact h.1

/-- A non-first chunk whose first chunk was never recorded, used as the C10
witness. -/
def c10Order : Order :=
  { tid := 1, type := OrderType.put, key := [1], chunk := [2],
    offset_chunk := 5, size_value := 9, size_value_compressed := 0,
    crc32 := 0 }

/-- Witness for C10 at a concrete input: the orphan chunk leaves the files,
the pending footer indexes and map_index_out untouched. -/
theorem c10_witness :
    (routeOrder (fun _ => 0) c10Order emptyEngineState).files =
        emptyEngineState.files ∧
      (routeOrder (fun _ => 0) c10Order emptyEngineState).logindexes =
        emptyEngineState.logindexes ∧
      (routeOrder (fun _ => 0) c10Order emptyEngineState).mapIndexOut =
        emptyEngineState.mapIndexOut := by
  have h := c10_missing_location_order_has_no_effect (fun _ => 0) c10Order
    emptyEngineState (by decide) rfl
  exact ⟨h.1, h.2.2.1, h.2.2.2.1⟩
